import Mathlib

/-!
Verification of the `pipe_supertask` pipeline-orchestration package.

This file gives a shallow embedding, in Lean, of the parts of the package
that its specification talks about:

* `pipelineTools.isPipelineOrdered` — the pipeline dependency-order check;
* `quantum.Quantum.__init__` — the quantum construction-time invariant;
* `configOverrides.ConfigOverrides.applyTo` — ordered config overrides;
* `graphTools.graph2dot` — the lineage (GraphViz) exporter;
* `activator.CmdLineActivator.parse_and_run` — task-kind classification;
* `cmdLineActivator.CmdLineActivator._executeSuperTask` — per-quantum
  exception marshalling.

External collaborators (the Python `eval`/`ast.literal_eval` builtins, the
`pex_config` field machinery, `config.load`, `formatTemplateNames`) are
modelled as explicit parameters or as recorded effects on the configuration
state.  Python machine-level details are embedded directly: dictionaries
become association lists, mutation becomes state passing, `raise` becomes
`Except.error`.
-/

namespace PipeSuperTask

/-! ## Python values

A small universe of Python values, enough for the values that flow through
`ConfigOverrides.applyTo` (numbers, strings, lists, dicts). -/

inductive PyVal where
  | int (n : Int)
  | str (s : String)
  | list (xs : List PyVal)
  | dict (entries : List (PyVal × PyVal))

/-! ### Character-level string helpers

Structural (kernel-evaluable) counterparts of Python's `split`, `strip`
and integer parsing, used by the embedding. -/

/-- Python `s.split(sep)` for a one-character separator, on the character
list: always returns at least one (possibly empty) piece. -/
def splitOnChar (sep : Char) : List Char → List String
  | [] => [""]
  | c :: rest =>
    match splitOnChar sep rest with
    | [] => [""]
    | t :: ts =>
      if c = sep then "" :: t :: ts
      else (c.toString ++ t) :: ts

/-- `field.split('.')`. -/
def fieldParts (s : String) : List String :=
  splitOnChar '.' s.toList

/-- Strip leading and trailing spaces. -/
def trimChars (cs : List Char) : List Char :=
  ((cs.dropWhile (fun c => c = ' ')).reverse.dropWhile (fun c => c = ' ')).reverse

/-- Value of a decimal digit. -/
def digitVal? (c : Char) : Option Nat :=
  if c.isDigit then some (c.toNat - '0'.toNat) else none

/-- Parse a non-empty all-digit character list. -/
def natOfDigits : List Char → Option Nat
  | [] => none
  | cs =>
    cs.foldl
      (fun acc c =>
        match acc, digitVal? c with
        | some n, some d => some (n * 10 + d)
        | _, _ => none)
      (some 0)

/-- Parse an optionally-negated decimal integer. -/
def intOfChars : List Char → Option Int
  | '-' :: rest => (natOfDigits rest).map (fun n => -(n : Int))
  | cs => (natOfDigits cs).map (fun n => (n : Int))

/-! ## pipelineTools.isPipelineOrdered

`TaskConn` models the information obtainable from a resolved task class:
`getInputDatasetTypes(config).values()` and
`getOutputDatasetTypes(config).values()`, reduced to the dataset-type names
(the only part of a `DatasetType` that `isPipelineOrdered` reads).
`TaskDef.taskClass` is the optional resolved class; a `TaskFactory` is the
optional `taskFactory` argument, modelled as a total loader from task name
to connections. -/

structure TaskConn where
  inputNames : List String
  outputNames : List String
deriving Repr, DecidableEq

structure TaskDef where
  taskName : String
  taskClass : Option TaskConn
  label : Option String
deriving Repr, DecidableEq

/-- The `taskFactory.loadTaskClass` collaborator, modelled as a total map
from task name to the loaded class's connections. -/
def TaskFactory : Type := String → TaskConn

/-- Resolution step at the top of the first loop of `isPipelineOrdered`:
use `taskDef.taskClass` if set, otherwise load through the factory, and
raise when neither is available. -/
def resolveClass (factory : Option TaskFactory) (td : TaskDef) : Except String TaskConn :=
  match td.taskClass with
  | some tc => .ok tc
  | none =>
    match factory with
    | some f => .ok (f td.taskName)
    | none => .error "Task class is not defined but task factory instance is not provided"

/-- Inner loop `for dsType in outputs.values()` of the first loop of
`isPipelineOrdered`: record `name ↦ idx` in the producer index, raising on a
name that is already present. -/
def addOutputs (idx : Nat) : List String → List (String × Nat) → Except String (List (String × Nat))
  | [], m => .ok m
  | name :: rest, m =>
    if (m.lookup name).isSome then
      .error ("DatasetType `" ++ name ++ "' appears more than once as output")
    else
      addOutputs idx rest (m ++ [(name, idx)])

/-- First loop of `isPipelineOrdered`: resolve every task class (memoising
it on the task definition, here returned as the list of resolved
connections) and build the producer index. -/
def buildProducerIndex (factory : Option TaskFactory) :
    List TaskDef → Nat → List (String × Nat) →
    Except String (List (String × Nat) × List TaskConn)
  | [], _, m => .ok (m, [])
  | td :: rest, idx, m => do
    let tc ← resolveClass factory td
    let m1 ← addOutputs idx tc.outputNames m
    let (mFinal, conns) ← buildProducerIndex factory rest (idx + 1) m1
    .ok (mFinal, tc :: conns)

/-- `producerIndex.get(dsType.name, -1)`: pre-existing datasets have
effective producer index `-1`. -/
def producerIdx (m : List (String × Nat)) (name : String) : Int :=
  match m.lookup name with
  | some i => (i : Int)
  | none => -1

/-- Second loop of `isPipelineOrdered`: for each task in order, return
`false` as soon as some input's producer index satisfies `prodIdx >= idx`. -/
def checkConsumers (m : List (String × Nat)) : List TaskConn → Nat → Bool
  | [], _ => true
  | tc :: rest, idx =>
    if tc.inputNames.any (fun name => (idx : Int) ≤ producerIdx m name) then false
    else checkConsumers m rest (idx + 1)

/-- `pipelineTools.isPipelineOrdered(pipeline, taskFactory=None)`.
Raising (`ValueError`) is `Except.error`; the boolean result is
`Except.ok`. -/
def isPipelineOrdered (pipeline : List TaskDef) (taskFactory : Option TaskFactory) :
    Except String Bool := do
  let (m, conns) ← buildProducerIndex taskFactory pipeline 0 []
  .ok (checkConsumers m conns 0)

/-- Output dataset-type names a task definition declares (via its resolved
class); used to state the claims about `isPipelineOrdered`. -/
def outputsOf (td : TaskDef) : List String :=
  match td.taskClass with
  | some tc => tc.outputNames
  | none => []

/-- Input dataset-type names a task definition declares. -/
def inputsOf (td : TaskDef) : List String :=
  match td.taskClass with
  | some tc => tc.inputNames
  | none => []

/-- The specification's ordering property, written from the spec's words:
every task consuming a dataset-type name `D` produced by some task appears
strictly after `D`'s producer; a consumed name with no producer imposes no
constraint, and a task consuming its own output violates the property. -/
def orderedSpec (p : List TaskDef) : Prop :=
  ∀ i j : Fin p.length, ∀ name ∈ outputsOf (p.get i), name ∈ inputsOf (p.get j) →
    (i : Nat) < (j : Nat)

instance (p : List TaskDef) : Decidable (orderedSpec p) := by
  unfold orderedSpec; infer_instance

/-- The effective output names of a task under an optional factory: the
names the first loop of `isPipelineOrdered` would record for it (empty when
the class is unresolvable, in which case the loop raises first). -/
def effOutputs (factory : Option TaskFactory) (td : TaskDef) : List String :=
  match td.taskClass with
  | some tc => tc.outputNames
  | none =>
    match factory with
    | some f => (f td.taskName).outputNames
    | none => []

/-- Entries the first loop appends to the producer index for a list of
resolved connections starting at position `k`. -/
def prodEntries (k : Nat) : List TaskConn → List (String × Nat)
  | [] => []
  | tc :: rest => tc.outputNames.map (fun n => (n, k)) ++ prodEntries (k + 1) rest

/-- The connections of each task once every class is resolved (defaulting
to empty connections for an unresolvable entry, which the loop in fact
never reaches). -/
def resolvedConns (p : List TaskDef) : List TaskConn :=
  p.map (fun td => td.taskClass.getD ⟨[], []⟩)

/-- The condition under which `isPipelineOrdered` raises for an
unresolvable task class: some task has no class and no factory is given. -/
def needsFactory (p : List TaskDef) (factory : Option TaskFactory) : Prop :=
  (∃ td ∈ p, td.taskClass = none) ∧ factory = none

/-! ## quantum.Quantum -/

/-- A `DataId`: mapping from dimension name to value (values rendered as
strings). -/
def DataId : Type := List (String × String)

instance : DecidableEq DataId := by
  unfold DataId; infer_instance

/-- `quantum.Quantum` with its four attributes. -/
structure Quantum where
  inputs : List (String × List DataId)
  outputs : List (String × List DataId)
  extras : Option PyVal
  director : Option String

/-- Python `director in mapping`: key membership. -/
def hasKey (m : List (String × List DataId)) (k : String) : Bool :=
  m.any (fun kv => kv.fst == k)

/-- The consistency test in `Quantum.__init__`:
`director and director not in inputs and director not in outputs`.
Python truthiness of a string makes `""` (and `None`) skip the check. -/
def quantumCheckFails (inputs outputs : List (String × List DataId))
    (director : Option String) : Bool :=
  match director with
  | none => false
  | some d => d != "" && !hasKey inputs d && !hasKey outputs d

/-- `Quantum.__init__(inputs, outputs, extras=None, director=None)`:
assign the four attributes, then raise `ValueError` when the consistency
check fails. -/
def mkQuantum (inputs outputs : List (String × List DataId))
    (extras : Option PyVal) (director : Option String) : Except String Quantum :=
  if quantumCheckFails inputs outputs director then
    .error ("Director dataset (" ++ director.getD "" ++ ") is not in inputs or outputs")
  else
    .ok { inputs := inputs, outputs := outputs, extras := extras, director := director }

/-! ## configOverrides.ConfigOverrides

A task configuration (`pex.Config`) is modelled as a tree of attributes.
An attribute is a nested sub-configuration, a plain typed field holding a
current value, or a list field (whose current value is a
`pexConfig.listField.List`).  Assignment to a typed field raises
`TypeError` on a value of the wrong type; assignment of a Python string to
a list field succeeds by iterating its characters (the hazard the source
guards against by pre-parsing).  The external collaborators — Python
`eval(value, {})`, `ast.literal_eval`, `config.load` — are parameters of
the model (`PyEnv`); `formatTemplateNames` and `load` calls are recorded
on the configuration state. -/

inductive PyTy where
  | intTy
  | strTy
  | listTy
  | dictTy
deriving Repr, DecidableEq

/-- The Python type of a value, for field type checking. -/
def tyOf : PyVal → PyTy
  | .int _ => .intTy
  | .str _ => .strTy
  | .list _ => .listTy
  | .dict _ => .dictTy

mutual

inductive Config where
  | mk (attrs : List (String × CField))

inductive CField where
  | sub (c : Config)
  | plain (ty : PyTy) (v : PyVal)
  | listField (xs : List PyVal)

end

/-- Attribute list of a configuration object. -/
def Config.attrs : Config → List (String × CField)
  | .mk a => a

/-- `getattr(config, name)` as a lookup; `none` models `AttributeError`. -/
def getAttr (c : Config) (name : String) : Option CField :=
  c.attrs.lookup name

/-- Replace attribute `name` of a configuration object (used once the field
descriptor has accepted the assignment). -/
def setAttrRaw (c : Config) (name : String) (f : CField) : Config :=
  .mk (c.attrs.map (fun kv => if kv.fst == name then (kv.fst, f) else kv))

inductive SetErr where
  | typeErr
  | otherErr
deriving Repr, DecidableEq

/-- `setattr(obj, name, value)` through the `pex_config` field descriptor:
a list field accepts a list, and accepts a string by iterating its
characters; other values raise `TypeError`.  A plain field type-checks the
value.  Overwriting a sub-configuration attribute with a plain value fails
with an error that is not a `TypeError`. -/
def setFieldVal : CField → PyVal → Except SetErr CField
  | .listField _, .list xs => .ok (.listField xs)
  | .listField _, .str s => .ok (.listField (s.toList.map (fun ch => PyVal.str ch.toString)))
  | .listField _, _ => .error .typeErr
  | .plain ty _, v => if tyOf v = ty then .ok (.plain ty v) else .error .typeErr
  | .sub _, _ => .error .otherErr

inductive OvErr where
  | attrErr (name : String)
  | typeErr
  | otherSetErr
  | parseListErr (s : String)
  | evalErr (s : String)
  | namesDictErr (s : String)
  | notPipelineTaskConfig
  | loadErr (filename : String)
deriving Repr, DecidableEq

/-- The attribute walk `for attr in field[:-1]: obj = getattr(obj, attr)`:
reach the object owning the final attribute.  A missing attribute, or a
leaf value that the walk cannot continue through, is an `AttributeError`. -/
def walkPath (c : Config) : List String → Except OvErr Config
  | [] => .ok c
  | a :: rest =>
    match getAttr c a with
    | some (.sub c2) => walkPath c2 rest
    | _ => .error (.attrErr a)

/-- Write field `last` under the prefix path (the pure-state counterpart of
mutating the owner object found by `walkPath`). -/
def setAtPath (c : Config) : List String → String → CField → Config
  | [], last, f => setAttrRaw c last f
  | a :: rest, last, f =>
    match getAttr c a with
    | some (.sub c2) => setAttrRaw c a (.sub (setAtPath c2 rest last f))
    | _ => c

/-- Configuration object state: the attribute tree, whether the class is a
`PipelineTaskConfig` subclass, and the recorded external calls
(`formatTemplateNames`, `load`). -/
structure ConfigObj where
  root : Config
  isPipelineTaskConfig : Bool
  templateCalls : List (List (PyVal × PyVal))
  loadCalls : List String

/-- External Python collaborators of `applyTo`: `eval(value, {})`,
`ast.literal_eval(...)` (where `none` models raising), and
`config.load(filename)` (where `none` models failure). -/
structure PyEnv where
  evalFn : String → Option PyVal
  literalEvalFn : String → Option PyVal
  loadFn : String → Config → Option Config

/-- The tagged overrides accumulated by `addFileOverride` (`'file'`),
`addValueOverride` (`'value'`) and `addDatatypeNameSubstitution`
(`'namesDict'`). -/
inductive Override where
  | file (filename : String)
  | value (field : String) (v : PyVal)
  | namesDict (s : String)

/-- `addFileOverride`: append a `('file', filename)` entry. -/
def addFileOverride (ovs : List Override) (filename : String) : List Override :=
  ovs ++ [.file filename]

/-- `addValueOverride`: append a `('value', (field, value))` entry. -/
def addValueOverride (ovs : List Override) (field : String) (v : PyVal) : List Override :=
  ovs ++ [.value field v]

/-- `addDatatypeNameSubstitution`: append a `('namesDict', s)` entry. -/
def addDatatypeNameSubstitution (ovs : List Override) (s : String) : List Override :=
  ovs ++ [.namesDict s]

/-- Is this value a Python `str`? -/
def isStr : PyVal → Bool
  | .str _ => true
  | _ => false

/-- The underlying string of a `str` value. -/
def strOf : PyVal → String
  | .str s => s
  | _ => ""

/-- Is this field's current value a `pexConfig.listField.List`? -/
def isListFieldVal : CField → Bool
  | .listField _ => true
  | _ => false

/-- One iteration of the `applyTo` loop body, for one override entry. -/
def applyOne (env : PyEnv) (cfg : ConfigObj) : Override → Except OvErr ConfigObj
  | .file filename =>
    match env.loadFn filename cfg.root with
    | some root2 =>
      .ok { cfg with root := root2, loadCalls := cfg.loadCalls ++ [filename] }
    | none => .error (.loadErr filename)
  | .value fieldPath v => do
    let parts := fieldParts fieldPath
    match parts.getLast? with
    | none => .error (.attrErr "")
    | some last => do
      let obj ← walkPath cfg.root parts.dropLast
      let cur ← (match getAttr obj last with
        | some f => Except.ok f
        | none => Except.error (OvErr.attrErr last))
      -- pre-parse: a string assigned to a list field is eval'ed first
      let v1 ← (if isListFieldVal cur && isStr v then
          match env.evalFn (strOf v) with
          | some parsed => Except.ok parsed
          | none => Except.error (OvErr.parseListErr (strOf v))
        else Except.ok v)
      match setFieldVal cur v1 with
      | .ok f2 => .ok { cfg with root := setAtPath cfg.root parts.dropLast last f2 }
      | .error .otherErr => .error .otherSetErr
      | .error .typeErr =>
        -- on TypeError, retry once after eval'ing a textual value
        if isStr v1 then
          match env.evalFn (strOf v1) with
          | none => .error (.evalErr (strOf v1))
          | some v2 =>
            match setFieldVal cur v2 with
            | .ok f2 => .ok { cfg with root := setAtPath cfg.root parts.dropLast last f2 }
            | .error .typeErr => .error .typeErr
            | .error .otherErr => .error .otherSetErr
        else .error .typeErr
  | .namesDict s =>
    match env.literalEvalFn s with
    | none => .error (.namesDictErr s)
    | some parsed =>
      match parsed with
      | .dict d =>
        if cfg.isPipelineTaskConfig then
          .ok { cfg with templateCalls := cfg.templateCalls ++ [d] }
        else .error .notPipelineTaskConfig
      | _ => .error (.namesDictErr s)

/-- `ConfigOverrides.applyTo(config)`: apply the accumulated overrides in
insertion order, aborting at the first failure. -/
def applyTo (env : PyEnv) : List Override → ConfigObj → Except OvErr ConfigObj
  | [], cfg => .ok cfg
  | ov :: rest, cfg =>
    match applyOne env cfg ov with
    | .ok cfg2 => applyTo env rest cfg2
    | .error e => .error e

/-- A small concrete literal evaluator: flat integer-list literals such as
`"[1,2,3]"` and plain integer literals.  A sound instance of the `evalFn`
collaborator on these inputs, used to exercise the theorems on concrete
data. -/
def evalIntListLit (s : String) : Option PyVal :=
  match trimChars s.toList with
  | '[' :: rest =>
    (match rest.getLast? with
     | some ']' =>
       (match trimChars rest.dropLast with
        | [] => some (.list [])
        | inner =>
          match (splitOnChar ',' inner).mapM (fun p => intOfChars (trimChars p.toList)) with
          | some ns => some (.list (ns.map PyVal.int))
          | none => none)
     | _ => none)
  | t => (intOfChars t).map PyVal.int

/-! ## graphTools.graph2dot

The lineage exporter walks a quantum graph (one entry per task, with the
task definition and its quanta) and prints DOT statements.  `print` calls
are embedded as a list of structured lines (`DotLine`), each rendered to
the exact printed text by `renderDotLine`; `graph2dot` is the concatenated
text. -/

/-- Python truthiness of an optional string (`if taskDef.label:`). -/
def optStrTruthy : Option String → Bool
  | none => false
  | some s => s != ""

structure DatasetTypeG where
  name : String
deriving Repr, DecidableEq

/-- A `DatasetRef`: dataset type plus DataId (dimension→value entries,
values already rendered by `str`). -/
structure DatasetRef where
  datasetType : DatasetTypeG
  dataId : DataId
deriving DecidableEq

/-- A quantum as seen by `graph2dot`: `predictedInputs` and `outputs` map
dataset-type names to lists of `DatasetRef`. -/
structure QGQuantum where
  predictedInputs : List (String × List DatasetRef)
  outputs : List (String × List DatasetRef)
deriving DecidableEq

/-- One entry of the quantum graph: a task definition with its quanta. -/
structure QGNodes where
  taskDef : TaskDef
  quanta : List QGQuantum
deriving DecidableEq

inductive DotLine where
  | header
  | taskNode (nodeName : String) (label : String)
  | dsNode (nodeName : String) (label : String)
  | edge (src dst : String)
  | footer
deriving Repr, DecidableEq

/-- `taskName.rpartition('.')[2]`: the part after the last dot (the whole
string when there is no dot). -/
def lastComponent (s : String) : String :=
  match (splitOnChar '.' s.toList).getLast? with
  | some t => t
  | none => s

/-- Insert a string into a `≤`-sorted list of strings. -/
def insertSorted (x : String) : List String → List String
  | [] => [x]
  | y :: ys => if x ≤ y then x :: y :: ys else y :: insertSorted x ys

/-- `sorted(...)` on a list of strings (insertion sort). -/
def sortStrs : List String → List String
  | [] => []
  | x :: xs => insertSorted x (sortStrs xs)

/-- `dsRef.dataId[key]` (the DataId is a mapping; absent keys do not occur
when the key list is taken from the mapping itself). -/
def dataIdLookup (d : DataId) (k : String) : String :=
  ((d : List (String × String)).lookup k).getD ""

/-- The label of a task node: class name, plus `label: …` when the task
definition's label is truthy, joined by a literal `\n`. -/
def taskNodeLabel (td : TaskDef) : String :=
  let parts :=
    [lastComponent td.taskName] ++
      (if optStrTruthy td.label then ["label: " ++ td.label.getD ""] else [])
  String.intercalate "\\n" parts

/-- The label of a dataset node: dataset-type name then the DataId entries
sorted by key, joined by a literal `\n`. -/
def dsNodeLabel (r : DatasetRef) : String :=
  let parts :=
    [r.datasetType.name] ++
      (sortStrs (r.dataId.map Prod.fst)).map (fun k => k ++ "=" ++ dataIdLookup r.dataId k)
  String.intercalate "\\n" parts

/-- `_datasetRefId(dsRef)`: the deduplication key — dataset-type name
followed by `:key=value` for each DataId entry, sorted by key. -/
def datasetRefId (r : DatasetRef) : String :=
  (sortStrs (r.dataId.map Prod.fst)).foldl
    (fun acc k => acc ++ ":" ++ k ++ "=" ++ dataIdLookup r.dataId k)
    r.datasetType.name

/-- `_makeDSNode(dsRef, allDatasetRefs, file)`: look the ref's id up in the
node map; when absent, allocate node name `dsref_<n>`, record it, and emit
a dataset-node line.  Returns the node name, the updated map and the
emitted lines. -/
def makeDSNode (r : DatasetRef) (alld : List (String × String)) :
    String × List (String × String) × List DotLine :=
  let refId := datasetRefId r
  match alld.lookup refId with
  | some nodeName => (nodeName, alld, [])
  | none =>
    let nodeName := "dsref_" ++ toString alld.length
    (nodeName, alld ++ [(refId, nodeName)], [.dsNode nodeName (dsNodeLabel r)])

/-- The inner loops over one quantum's refs: one `_makeDSNode` plus one edge
per ref (`toTask = true` for inputs, dataset→task; `false` for outputs). -/
def processRefs (taskNodeName : String) (toTask : Bool) :
    List DatasetRef → List (String × String) → List (String × String) × List DotLine
  | [], alld => (alld, [])
  | r :: rest, alld =>
    let (nodeName, alld2, lines) := makeDSNode r alld
    let e := if toTask then DotLine.edge nodeName taskNodeName
             else DotLine.edge taskNodeName nodeName
    let (alld3, lines2) := processRefs taskNodeName toTask rest alld2
    (alld3, lines ++ [e] ++ lines2)

/-- All refs referenced by a quantum, in traversal order: the flattened
`predictedInputs` values then the flattened `outputs` values. -/
def quantumRefs (q : QGQuantum) : List DatasetRef :=
  (q.predictedInputs.map Prod.snd).flatten ++ (q.outputs.map Prod.snd).flatten

/-- The loop body for one quantum: emit the task node, then process inputs
(dataset→task edges) and outputs (task→dataset edges). -/
def processQuantum (taskDef : TaskDef) (taskId qId : Nat) (q : QGQuantum)
    (alld : List (String × String)) : List (String × String) × List DotLine :=
  let taskNodeName := "task_" ++ toString taskId ++ "_" ++ toString qId
  let (alld2, inLines) :=
    processRefs taskNodeName true (q.predictedInputs.map Prod.snd).flatten alld
  let (alld3, outLines) :=
    processRefs taskNodeName false (q.outputs.map Prod.snd).flatten alld2
  (alld3, [.taskNode taskNodeName (taskNodeLabel taskDef)] ++ inLines ++ outLines)

/-- `for qId, quantum in enumerate(nodes.quanta)`. -/
def processQuanta (taskDef : TaskDef) (taskId : Nat) :
    List QGQuantum → Nat → List (String × String) → List (String × String) × List DotLine
  | [], _, alld => (alld, [])
  | q :: rest, qId, alld =>
    let (alld2, lines) := processQuantum taskDef taskId qId q alld
    let (alld3, lines2) := processQuanta taskDef taskId rest (qId + 1) alld2
    (alld3, lines ++ lines2)

/-- `for taskId, nodes in enumerate(qgraph)`. -/
def graph2dotCore :
    List QGNodes → Nat → List (String × String) → List (String × String) × List DotLine
  | [], _, alld => (alld, [])
  | n :: rest, taskId, alld =>
    let (alld2, lines) := processQuanta n.taskDef taskId n.quanta 0 alld
    let (alld3, lines2) := graph2dotCore rest (taskId + 1) alld2
    (alld3, lines ++ lines2)

/-- The full sequence of printed statements of `graph2dot`. -/
def graph2dotLines (qgraph : List QGNodes) : List DotLine :=
  [.header] ++ (graph2dotCore qgraph 0 []).snd ++ [.footer]

/-- Render one printed DOT statement exactly as the source prints it. -/
def renderDotLine : DotLine → String
  | .header => "digraph QuantumGraph \x7b"
  | .taskNode nodeName label =>
    nodeName ++ " [shape=\"box\", style=\"filled,bold\", fillcolor=\"gray70\", label=\"" ++
      label ++ "\"];"
  | .dsNode nodeName label =>
    nodeName ++ " [shape=\"box\", style=\"rounded,filled\", fillcolor=\"gray90\", label=\"" ++
      label ++ "\"];"
  | .edge src dst => src ++ " -> " ++ dst ++ ";"
  | .footer => "\x7d"

/-- `graph2dot` output text: every statement on its own line. -/
def graph2dot (qgraph : List QGNodes) : String :=
  String.join ((graph2dotLines qgraph).map (fun l => renderDotLine l ++ "\n"))

/-- All refs referenced anywhere in the export, in traversal order, with
multiplicity (one entry per referencing occurrence). -/
def allRefs (qgraph : List QGNodes) : List DatasetRef :=
  (qgraph.map (fun n => (n.quanta.map quantumRefs).flatten)).flatten

/-- Count of dataset-node statements in an emitted line list. -/
def dsNodeCount (lines : List DotLine) : Nat :=
  (lines.filter (fun l => match l with | .dsNode _ _ => true | _ => false)).length

/-- Count of edge statements in an emitted line list. -/
def edgeCount (lines : List DotLine) : Nat :=
  (lines.filter (fun l => match l with | .edge _ _ => true | _ => false)).length

/-- A ref is clean when its dataset-type name and DataId keys and values
avoid the separator characters `:` and `=`, and its DataId is in canonical
form (entries strictly sorted by key, hence distinct keys). -/
def cleanStr (s : String) : Bool :=
  s.toList.all (fun c => c ≠ ':' && c ≠ '=')

/-- Entries strictly sorted by key (hence keys pairwise distinct). -/
def strictSortedKeys : List (String × String) → Bool
  | [] => true
  | [_] => true
  | a :: b :: rest => decide (a.fst < b.fst) && strictSortedKeys (b :: rest)

def cleanRef (r : DatasetRef) : Bool :=
  cleanStr r.datasetType.name &&
  (r.dataId : List (String × String)).all (fun kv => cleanStr kv.fst && cleanStr kv.snd) &&
  strictSortedKeys (r.dataId : List (String × String))

/-- The suffix `_datasetRefId` appends for a DataId, entry by entry (used
to analyse the key once the sort is known to be the identity). -/
def encodeEntries : List (String × String) → String
  | [] => ""
  | (k, v) :: rest => ":" ++ k ++ "=" ++ v ++ encodeEntries rest

/-- Accumulate first-seen identifiers, in order: the key set of the
exporter's node map after processing a list of ref ids. -/
def pushNews (ks : List String) (ids : List String) : List String :=
  ids.foldl (fun acc i => if i ∈ acc then acc else acc ++ [i]) ks

/-! ## activator.CmdLineActivator.parse_and_run task-kind classification

The classification inspects the names of the classes in the task class's
method resolution order, modelled as the list of those names. -/

/-- The `super_task_subclass` assignment of `parse_and_run`, including its
(unreachable) `'Both'` branch, exactly as the source orders the tests. -/
def superTaskSubclass (mro : List String) : String :=
  if mro.contains "SuperTask" then "SuperTask"
  else if mro.contains "CmdLineTask" then "CmdLineTask"
  else if mro.contains "SuperTask" && mro.contains "CmdLineTask" then "Both"
  else "None"

inductive DispatchOutcome where
  | executes
  | legacyRun
  | raisesNotATask
  | raisesBothKinds
deriving Repr, DecidableEq

/-- What `parse_and_run` then does for each classification: `'SuperTask'`
instantiates the task and activates it, `'CmdLineTask'` forwards to
`parseAndRun`, `'None'` and `'Both'` raise `RuntimeError`. -/
def parseAndRunDispatch (mro : List String) : DispatchOutcome :=
  let kind := superTaskSubclass mro
  if kind = "SuperTask" then .executes
  else if kind = "CmdLineTask" then .legacyRun
  else if kind = "None" then .raisesNotATask
  else .raisesBothKinds

/-- `taskLoader._task_kind`, on the same MRO model: `None` (here `none`)
when the class does not inherit from `Task` at all. -/
def taskKind (mro : List String) : Option String :=
  if mro.contains "SuperTask" then some "SuperTask"
  else if mro.contains "CmdLineTask" then some "CmdLineTask"
  else if mro.contains "Task" then some "Task"
  else none

/-! ## cmdLineActivator.CmdLineActivator._executeSuperTask exception marshalling -/

/-- The outcome of `task.execute(...)`: normal return, an exception
inheriting from `Exception` (type name and message), or an exception not
inheriting from `Exception` (type name, message and formatted traceback). -/
inductive ExecOutcome where
  | ok
  | exc (name msg : String)
  | baseExc (name msg trace : String)
deriving Repr, DecidableEq

/-- The `try/except` around `task.execute` in `_executeSuperTask`: an
`Exception` is re-raised unchanged; anything else is logged (message
including the formatted traceback) and re-raised as a new `Exception`
built from the original type name and message.  The result pairs the
outcome seen by the caller with the log records written. -/
def executeSuperTask : ExecOutcome → ExecOutcome × List String
  | .ok => (.ok, [])
  | .exc name msg => (.exc name msg, [])
  | .baseExc name msg trace =>
    (.exc "Exception" ("Unhandled exception: " ++ name ++ " (" ++ msg ++ ")"),
     ["Unhandled exception " ++ name ++ " (" ++ msg ++ "):\n" ++ trace])

/-- `hay` carries `piece` verbatim (as a contiguous substring). -/
def strCarries (hay piece : String) : Prop :=
  ∃ pre post : String, hay = pre ++ piece ++ post

/-- Is `sub` a contiguous sublist of `hay`? -/
def listHasInfix (hay sub : List Char) : Bool :=
  match hay with
  | [] => sub.isEmpty
  | _ :: t => sub.isPrefixOf hay || listHasInfix t sub

/-- Executable substring test, for concrete counterexamples. -/
def strContainsSub (hay piece : String) : Bool :=
  listHasInfix hay.toList piece.toList

/-! ## Concrete instances used to exercise the theorems -/

/-- The spec's example producer task: outputs dataset type `A`. -/
def demoProducer : TaskDef :=
  { taskName := "examples.ProducerTask", taskClass := some ⟨[], ["A"]⟩, label := none }

/-- The spec's example consumer task: inputs dataset type `A`. -/
def demoConsumer : TaskDef :=
  { taskName := "examples.ConsumerTask", taskClass := some ⟨["A"], []⟩, label := none }

def demoPipeline : List TaskDef := [demoProducer, demoConsumer]

def demoDataId : DataId := [("visit", "1")]

def demoInputs : List (String × List DataId) := [("raw", [demoDataId])]

def demoOutputs : List (String × List DataId) := [("calexp", [demoDataId])]

/-- A configuration with a list field at dotted path `sub.field`. -/
def demoSubConfig : Config := .mk [("field", .listField [PyVal.int 0])]

def demoRoot : Config := .mk [("sub", .sub demoSubConfig)]

def demoConfigObj : ConfigObj :=
  { root := demoRoot, isPipelineTaskConfig := true, templateCalls := [], loadCalls := [] }

/-- A concrete `ast.literal_eval` instance for the dictionary literal used
by the witnesses. -/
def demoLiteralEval (s : String) : Option PyVal :=
  if s = "\x7b'input': 'deep'\x7d" then some (.dict [(.str "input", .str "deep")])
  else evalIntListLit s

def demoEnv : PyEnv :=
  { evalFn := evalIntListLit, literalEvalFn := demoLiteralEval, loadFn := fun _ c => some c }

/-- Two distinct refs on which `_datasetRefId` collides: a separator-laden
dataset-type name versus a DataId entry. -/
def collidingRefA : DatasetRef := { datasetType := ⟨"A:k=1"⟩, dataId := [] }

def collidingRefB : DatasetRef := { datasetType := ⟨"A"⟩, dataId := [("k", "1")] }

/-- One-task quantum graph referencing both colliding refs as inputs. -/
def collidingQG : List QGNodes :=
  [{ taskDef := demoProducer,
     quanta := [{ predictedInputs := [("x", [collidingRefA, collidingRefB])], outputs := [] }] }]

/-- A clean shared ref, and a graph of two quanta both consuming it. -/
def sharedRef : DatasetRef := { datasetType := ⟨"raw"⟩, dataId := [("visit", "1")] }

def sharedRefQG : List QGNodes :=
  [{ taskDef := demoProducer,
     quanta := [{ predictedInputs := [("raw", [sharedRef])], outputs := [] },
                { predictedInputs := [("raw", [sharedRef])], outputs := [] }] }]

/-- MRO of a class inheriting from both `SuperTask` and `CmdLineTask`. -/
def bothKindsMro : List String :=
  ["MixedTask", "SuperTask", "CmdLineTask", "Task", "object"]

end PipeSuperTask

namespace PipeSuperTask

/-! # Theorems

General-purpose lemmas first, then the claim theorems (`C1`–`C10`), each
with the witnesses and counterexamples that settle its claim. -/

/-- Specialisation of association-list lookup: a lookup succeeds exactly
when the key occurs among the stored keys. -/
theorem lookup_isSome_iff {β : Type} (l : List (String × β)) (k : String) :
    (l.lookup k).isSome = true ↔ k ∈ l.map Prod.fst := by
  induction l with
  | nil => simp [List.lookup]
  | cons kv rest ih =>
    obtain ⟨k0, v0⟩ := kv
    by_cases h : k = k0
    · subst h; simp [List.lookup]
    · have hb : (k == k0) = false := beq_false_of_ne h
      simp [List.lookup, hb, ih, h]

/-- Counterpart for failing lookups. -/
theorem lookup_eq_none_iff {β : Type} (l : List (String × β)) (k : String) :
    l.lookup k = none ↔ k ∉ l.map Prod.fst := by
  rw [← lookup_isSome_iff]
  cases h : l.lookup k <;> simp [h]

/-- Lookup distributes over append; the left list wins when it has the key. -/
theorem lookup_append {β : Type} (l1 l2 : List (String × β)) (k : String) :
    (l1 ++ l2).lookup k =
      match l1.lookup k with
      | some v => some v
      | none => l2.lookup k := by
  induction l1 with
  | nil => simp [List.lookup]
  | cons kv rest ih =>
    obtain ⟨k0, v0⟩ := kv
    by_cases h : k = k0
    · subst h; simp [List.lookup]
    · have hb : (k == k0) = false := beq_false_of_ne h
      simp [List.lookup, hb, ih]

/-- `addOutputs` with fresh, duplicate-free names appends their entries. -/
theorem addOutputs_ok (idx : Nat) (names : List String) (m : List (String × Nat))
    (hfresh : ∀ n ∈ names, n ∉ m.map Prod.fst) (hnd : names.Nodup) :
    addOutputs idx names m = .ok (m ++ names.map (fun n => (n, idx))) := by
  induction names generalizing m with
  | nil => simp [addOutputs]
  | cons a rest ih =>
    have ha : m.lookup a = none :=
      (lookup_eq_none_iff m a).mpr (hfresh a (by simp))
    have hrec := ih (m ++ [(a, idx)])
      (by
        intro n hn
        rw [List.map_append]
        simp only [List.map_cons, List.map_nil, List.mem_append, List.mem_singleton]
        rintro (h | h)
        · exact hfresh n (List.mem_cons_of_mem a hn) h
        · exact (List.nodup_cons.mp hnd).1 (h ▸ hn))
      (List.nodup_cons.mp hnd).2
    simp [addOutputs, ha, hrec, List.append_assoc]

/-- `addOutputs` succeeds exactly when the new names collide neither with
the existing keys nor with each other. -/
theorem addOutputs_isOk_iff (idx : Nat) (names : List String) (m : List (String × Nat))
    (hm : (m.map Prod.fst).Nodup) :
    (∃ m2, addOutputs idx names m = .ok m2) ↔ (m.map Prod.fst ++ names).Nodup := by
  induction names generalizing m with
  | nil =>
    constructor
    · intro _; simpa using hm
    · intro _; exact ⟨m, rfl⟩
  | cons a rest ih =>
    by_cases ha : a ∈ m.map Prod.fst
    · have hsome : (m.lookup a).isSome = true := (lookup_isSome_iff m a).mpr ha
      have h1 : ¬ ∃ m2, addOutputs idx (a :: rest) m = .ok m2 := by
        simp [addOutputs, hsome]
      have h2 : ¬ (m.map Prod.fst ++ a :: rest).Nodup := by
        intro h
        rcases List.nodup_append.mp h with ⟨-, -, hdisj⟩
        exact hdisj ha (by simp)
      exact iff_of_false h1 h2
    · have hlk : m.lookup a = none := (lookup_eq_none_iff m a).mpr ha
      have hm2 : ((m ++ [(a, idx)]).map Prod.fst).Nodup := by
        rw [List.map_append]
        simp [List.nodup_append, hm, ha]
      have hih := ih (m ++ [(a, idx)]) hm2
      have hstep : addOutputs idx (a :: rest) m = addOutputs idx rest (m ++ [(a, idx)]) := by
        simp [addOutputs, hlk]
      rw [hstep, hih, List.map_append]
      simp [List.append_assoc]

/-- The connections of a resolved task list its declared outputs. -/
theorem resolved_outputNames (td : TaskDef) :
    (td.taskClass.getD ⟨[], []⟩).outputNames = outputsOf td := by
  cases h : td.taskClass <;> simp [outputsOf, h]

/-- The connections of a resolved task list its declared inputs. -/
theorem resolved_inputNames (td : TaskDef) :
    (td.taskClass.getD ⟨[], []⟩).inputNames = inputsOf td := by
  cases h : td.taskClass <;> simp [inputsOf, h]

/-- The resolved connections declare, task by task, the pipeline's output
names. -/
theorem resolvedConns_outputs (p : List TaskDef) :
    (resolvedConns p).map TaskConn.outputNames = p.map outputsOf := by
  rw [resolvedConns, List.map_map]
  congr 1
  funext td
  exact resolved_outputNames td

/-- With every class resolved and globally duplicate-free outputs, the
first loop of `isPipelineOrdered` succeeds and the producer index lists
every output name at its producer's position. -/
theorem buildProducerIndex_ok (factory : Option TaskFactory) (p : List TaskDef)
    (k : Nat) (m : List (String × Nat))
    (hres : ∀ td ∈ p, td.taskClass.isSome)
    (hfresh : ∀ n ∈ (p.map outputsOf).flatten, n ∉ m.map Prod.fst)
    (hnd : (p.map outputsOf).flatten.Nodup) :
    buildProducerIndex factory p k m =
      .ok (m ++ prodEntries k (resolvedConns p), resolvedConns p) := by
  induction p generalizing k m with
  | nil => simp [buildProducerIndex, resolvedConns, prodEntries]
  | cons td rest ih =>
    obtain ⟨tc, htc⟩ := Option.isSome_iff_exists.mp (hres td (by simp))
    have hout : tc.outputNames = outputsOf td := by
      rw [outputsOf, htc]
    rw [List.map_cons, List.flatten_cons] at hnd
    rcases List.nodup_append.mp hnd with ⟨hnd1, hnd2, hdisj⟩
    have hadd : addOutputs k tc.outputNames m =
        .ok (m ++ tc.outputNames.map (fun n => (n, k))) := by
      apply addOutputs_ok
      · intro n hn
        apply hfresh n
        rw [List.map_cons, List.flatten_cons]
        exact List.mem_append_left _ (hout ▸ hn)
      · rw [hout]; exact hnd1
    have hfresh2 : ∀ n ∈ (rest.map outputsOf).flatten,
        n ∉ (m ++ tc.outputNames.map (fun n => (n, k))).map Prod.fst := by
      intro n hn
      rw [List.map_append]
      simp only [List.map_map, List.mem_append]
      rintro (h | h)
      · have hmem : n ∈ ((td :: rest).map outputsOf).flatten := by
          rw [List.map_cons, List.flatten_cons]
          exact List.mem_append_right _ hn
        exact hfresh n hmem h
      · have hmem : n ∈ tc.outputNames := by simpa using h
        exact hdisj (hout ▸ hmem) hn
    have hrec := ih (k + 1) (m ++ tc.outputNames.map (fun n => (n, k)))
      (fun td' h => hres td' (List.mem_cons_of_mem td h))
      hfresh2
      hnd2
    have hconns : resolvedConns (td :: rest) = tc :: resolvedConns rest := by
      simp [resolvedConns, htc]
    have hres2 : resolveClass factory td = .ok tc := by
      simp [resolveClass, htc]
    simp [buildProducerIndex, hres2, hadd, hrec, bind, Except.bind, hconns,
      prodEntries, List.append_assoc, htc]
    rfl

/-- A name present in each entry maps to the chunk's position. -/
theorem lookup_map_const_some (names : List String) (k : Nat) (D : String)
    (h : D ∈ names) :
    (names.map (fun n => (n, k))).lookup D = some k := by
  induction names with
  | nil => cases h
  | cons a rest ih =>
    by_cases hD : D = a
    · subst hD; simp [List.lookup]
    · have hb : (D == a) = false := beq_false_of_ne hD
      have hrest : D ∈ rest := by
        rcases List.mem_cons.mp h with h1 | h1
        · exact absurd h1 hD
        · exact h1
      simp [List.lookup, hb, ih hrest]

/-- A name absent from the chunk is not found in it. -/
theorem lookup_map_const_none (names : List String) (k : Nat) (D : String)
    (h : D ∉ names) :
    (names.map (fun n => (n, k))).lookup D = none := by
  apply (lookup_eq_none_iff _ _).mpr
  simpa using h

/-- A name not produced anywhere is absent from the producer index. -/
theorem prodEntries_lookup_none (cs : List TaskConn) (k : Nat) (D : String)
    (h : D ∉ (cs.map TaskConn.outputNames).flatten) :
    (prodEntries k cs).lookup D = none := by
  induction cs generalizing k with
  | nil => rfl
  | cons tc rest ih =>
    rw [List.map_cons, List.flatten_cons] at h
    have h1 : D ∉ tc.outputNames := fun hD => h (List.mem_append_left _ hD)
    have h2 : D ∉ (rest.map TaskConn.outputNames).flatten :=
      fun hD => h (List.mem_append_right _ hD)
    rw [prodEntries, lookup_append, lookup_map_const_none _ _ _ h1]
    exact ih (k + 1) h2

/-- A name produced by the task at offset `i` maps to position `k + i` in
the producer index (given globally duplicate-free outputs). -/
theorem prodEntries_lookup_some (cs : List TaskConn) (k i : Nat)
    (hi : i < cs.length) (D : String)
    (hD : D ∈ (cs.get ⟨i, hi⟩).outputNames)
    (hnd : (cs.map TaskConn.outputNames).flatten.Nodup) :
    (prodEntries k cs).lookup D = some (k + i) := by
  induction cs generalizing k i with
  | nil => simp at hi
  | cons tc rest ih =>
    rw [List.map_cons, List.flatten_cons] at hnd
    rcases List.nodup_append.mp hnd with ⟨-, hnd2, hdisj⟩
    cases i with
    | zero =>
      have hD0 : D ∈ tc.outputNames := hD
      rw [prodEntries, lookup_append, lookup_map_const_some _ _ _ hD0]
      simp
    | succ i2 =>
      have hi2 : i2 < rest.length := by
        simp at hi
        exact hi
      have hD2 : D ∈ (rest.get ⟨i2, hi2⟩).outputNames := hD
      have hmem : D ∈ (rest.map TaskConn.outputNames).flatten := by
        apply List.mem_flatten.mpr
        exact ⟨(rest.get ⟨i2, hi2⟩).outputNames,
          List.mem_map.mpr ⟨rest.get ⟨i2, hi2⟩, List.get_mem _ _ _, rfl⟩, hD2⟩
      have hnot : D ∉ tc.outputNames := fun hmem0 => hdisj hmem0 hmem
      rw [prodEntries, lookup_append, lookup_map_const_none _ _ _ hnot]
      rw [ih (k + 1) i2 hi2 hD2 hnd2]
      have harith : k + 1 + i2 = k + (i2 + 1) := by omega
      simp [harith]

/-- The second loop accepts exactly when every consumed name's producer
index is strictly below the consumer's position. -/
theorem checkConsumers_iff (m : List (String × Nat)) (cs : List TaskConn) (k : Nat) :
    checkConsumers m cs k = true ↔
      ∀ j : Fin cs.length, ∀ D ∈ (cs.get j).inputNames,
        producerIdx m D < ((k + (j : Nat) : Nat) : Int) := by
  induction cs generalizing k with
  | nil =>
    constructor
    · intro _ j
      exact absurd j.isLt (by simp)
    · intro _; rfl
  | cons tc rest ih =>
    rw [checkConsumers]
    by_cases hany : tc.inputNames.any (fun name => decide ((k : Int) ≤ producerIdx m name))
    · rw [if_pos hany]
      obtain ⟨D, hD, hle⟩ := List.any_eq_true.mp hany
      have hle2 : (k : Int) ≤ producerIdx m D := of_decide_eq_true hle
      constructor
      · intro h; cases h
      · intro H
        have := H ⟨0, by simp⟩ D hD
        simp only [Nat.add_zero] at this
        omega
    · rw [if_neg hany]
      have hhead : ∀ D ∈ tc.inputNames, producerIdx m D < (k : Int) := by
        intro D hD
        by_contra hcon
        exact hany (List.any_eq_true.mpr ⟨D, hD, decide_eq_true (by omega)⟩)
      rw [ih (k + 1)]
      constructor
      · intro H j D hD
        rcases j with ⟨jv, hj⟩
        cases jv with
        | zero =>
          have h0 := hhead D hD
          simp only [Nat.add_zero]
          omega
        | succ j2 =>
          have hj2 : j2 < rest.length := by simpa using hj
          have := H ⟨j2, hj2⟩ D hD
          have harith : ((k + 1 + j2 : Nat) : Int) = ((k + (j2 + 1) : Nat) : Int) := by
            push_cast; omega
          rw [harith] at this
          exact this
      · intro H j D hD
        have := H ⟨(j : Nat) + 1, by simp⟩ D hD
        have harith : ((k + ((j : Nat) + 1) : Nat) : Int) = ((k + 1 + (j : Nat) : Nat) : Int) := by
          push_cast; omega
        rw [harith] at this
        exact this

/-- Claim C1: for every pipeline in which each dataset-type name is output
by at most one task (each output name is declared only once) and every
task has a resolved task class, `isPipelineOrdered` returns true iff, for
every dataset-type name produced by some task, every consumer of that name
appears strictly after its producer; a consumed name with no producer is
always allowed, and a task consuming its own output yields false. -/
theorem isPipelineOrdered_iff_ordered (p : List TaskDef) (factory : Option TaskFactory)
    (hres : ∀ td ∈ p, td.taskClass.isSome)
    (hnd : (p.map outputsOf).flatten.Nodup) :
    isPipelineOrdered p factory = .ok true ↔ orderedSpec p := by
  have hb := buildProducerIndex_ok factory p 0 [] hres (by simp) hnd
  have hlen : (resolvedConns p).length = p.length := by simp [resolvedConns]
  have hcsnd : ((resolvedConns p).map TaskConn.outputNames).flatten.Nodup := by
    rw [resolvedConns_outputs]; exact hnd
  have hget : ∀ (v : Nat) (hv : v < p.length) (hv2 : v < (resolvedConns p).length),
      (resolvedConns p).get ⟨v, hv2⟩ =
        (p.get ⟨v, hv⟩).taskClass.getD ⟨[], []⟩ := by
    intro v hv hv2
    simp [resolvedConns]
  rw [isPipelineOrdered]
  rw [hb]
  show (Except.ok (checkConsumers ([] ++ prodEntries 0 (resolvedConns p))
      (resolvedConns p) 0) = Except.ok true) ↔ _
  rw [List.nil_append]
  constructor
  · intro H
    have hchk : checkConsumers (prodEntries 0 (resolvedConns p)) (resolvedConns p) 0
        = true := by
      exact Except.ok.inj H
    have H2 := (checkConsumers_iff _ _ _).mp hchk
    intro i j D hDout hDin
    have hj : (j : Nat) < (resolvedConns p).length := by rw [hlen]; exact j.isLt
    have hi : (i : Nat) < (resolvedConns p).length := by rw [hlen]; exact i.isLt
    have hin : D ∈ ((resolvedConns p).get ⟨(j : Nat), hj⟩).inputNames := by
      rw [hget (j : Nat) j.isLt hj, resolved_inputNames]
      exact hDin
    have hout : D ∈ ((resolvedConns p).get ⟨(i : Nat), hi⟩).outputNames := by
      rw [hget (i : Nat) i.isLt hi, resolved_outputNames]
      exact hDout
    have hlook := prodEntries_lookup_some (resolvedConns p) 0 (i : Nat) hi D hout hcsnd
    have := H2 ⟨(j : Nat), hj⟩ D hin
    rw [producerIdx, hlook] at this
    simp only [Nat.zero_add] at this
    exact_mod_cast this
  · intro H
    have hgoal : checkConsumers (prodEntries 0 (resolvedConns p)) (resolvedConns p) 0
        = true := by
      apply (checkConsumers_iff _ _ _).mpr
      intro j D hD
      have hj : (j : Nat) < p.length := by rw [← hlen]; exact j.isLt
      have hD2 : D ∈ ((resolvedConns p).get ⟨(j : Nat), j.isLt⟩).inputNames := by
        have heta : (⟨(j : Nat), j.isLt⟩ : Fin (resolvedConns p).length) = j :=
          Fin.eta j j.isLt
        rw [heta]
        exact hD
      have hDin : D ∈ inputsOf (p.get ⟨(j : Nat), hj⟩) := by
        rw [hget (j : Nat) hj j.isLt, resolved_inputNames] at hD2
        exact hD2
      by_cases hprod : D ∈ (p.map outputsOf).flatten
      · obtain ⟨l, hl, hDl⟩ := List.mem_flatten.mp hprod
        obtain ⟨td, htd, rfl⟩ := List.mem_map.mp hl
        obtain ⟨i, hgeti⟩ := List.mem_iff_get.mp htd
        have hi : (i : Nat) < (resolvedConns p).length := by rw [hlen]; exact i.isLt
        have hout : D ∈ ((resolvedConns p).get ⟨(i : Nat), hi⟩).outputNames := by
          rw [hget (i : Nat) i.isLt hi, resolved_outputNames]
          have : p.get ⟨(i : Nat), i.isLt⟩ = td := by
            rw [← hgeti]
          rw [this]
          exact hDl
        have hlook := prodEntries_lookup_some (resolvedConns p) 0 (i : Nat) hi D hout hcsnd
        have hij : (i : Nat) < (j : Nat) := by
          apply H i ⟨(j : Nat), hj⟩ D
          · rw [hgeti]; exact hDl
          · exact hDin
        simp only [producerIdx, hlook, Nat.zero_add]
        exact_mod_cast hij
      · have hnone : (prodEntries 0 (resolvedConns p)).lookup D = none := by
          apply prodEntries_lookup_none
          rw [resolvedConns_outputs]
          exact hprod
        simp only [producerIdx, hnone, Nat.zero_add]
        omega
    rw [hgoal]

/-- Claim C1 witness: the spec's ordered example pipeline
`[Producer(outputs={A}), Consumer(inputs={A})]`. -/
theorem isPipelineOrdered_iff_ordered_witness :
    isPipelineOrdered demoPipeline none = .ok true :=
  (isPipelineOrdered_iff_ordered demoPipeline none (by decide) (by decide)).mpr
    (by decide)

/-- The first loop succeeds exactly when the effective output declarations
are duplicate-free (relative to the accumulated index keys) and no task is
unresolvable. -/
theorem buildProducerIndex_isOk_iff (factory : Option TaskFactory) (p : List TaskDef)
    (k : Nat) (m : List (String × Nat)) (hm : (m.map Prod.fst).Nodup) :
    (∃ r, buildProducerIndex factory p k m = .ok r) ↔
      ((m.map Prod.fst ++ (p.map (effOutputs factory)).flatten).Nodup ∧
        ¬ needsFactory p factory) := by
  induction p generalizing k m with
  | nil =>
    constructor
    · intro _
      refine ⟨by simpa using hm, ?_⟩
      rintro ⟨⟨td, htd, -⟩, -⟩
      simp at htd
    · intro _
      exact ⟨(m, []), rfl⟩
  | cons td rest ih =>
    cases hr : resolveClass factory td with
    | error e =>
      have hcase : td.taskClass = none ∧ factory = none := by
        cases htc : td.taskClass with
        | some tc => simp [resolveClass, htc] at hr
        | none =>
          cases hfa : factory with
          | some f => simp [resolveClass, htc, hfa] at hr
          | none => exact ⟨rfl, rfl⟩
      have h1 : ¬ ∃ r, buildProducerIndex factory (td :: rest) k m = .ok r := by
        simp [buildProducerIndex, hr, bind, Except.bind]
      have h2 : ¬ ((m.map Prod.fst ++ ((td :: rest).map (effOutputs factory)).flatten).Nodup ∧
          ¬ needsFactory (td :: rest) factory) := by
        rintro ⟨-, hnn⟩
        exact hnn ⟨⟨td, by simp, hcase.1⟩, hcase.2⟩
      exact iff_of_false h1 h2
    | ok tc =>
      have heff : effOutputs factory td = tc.outputNames := by
        cases htc : td.taskClass with
        | some tc2 =>
          simp only [resolveClass, htc, Except.ok.injEq] at hr
          simp [effOutputs, htc, hr]
        | none =>
          cases hfa : factory with
          | none => simp [resolveClass, htc, hfa] at hr
          | some f =>
            simp only [resolveClass, htc, hfa, Except.ok.injEq] at hr
            simp [effOutputs, htc, hfa, hr]
      have hneeds : needsFactory (td :: rest) factory ↔ needsFactory rest factory := by
        cases htc : td.taskClass with
        | some tc2 => simp [needsFactory, htc]
        | none =>
          cases hfa : factory with
          | none => simp [resolveClass, htc, hfa] at hr
          | some f => simp [needsFactory, hfa]
      by_cases hok : (m.map Prod.fst ++ tc.outputNames).Nodup
      · rcases List.nodup_append.mp hok with ⟨-, hnd1, hdisj⟩
        have hfresh : ∀ n ∈ tc.outputNames, n ∉ m.map Prod.fst :=
          fun n hn hmem => hdisj hmem hn
        have hadd := addOutputs_ok k tc.outputNames m hfresh hnd1
        have hkeys2 : ((m ++ tc.outputNames.map fun n => (n, k)).map Prod.fst) =
            m.map Prod.fst ++ tc.outputNames := by
          rw [List.map_append, List.map_map]
          simp [Function.comp_def]
        have hm2 : ((m ++ tc.outputNames.map fun n => (n, k)).map Prod.fst).Nodup := by
          rw [hkeys2]; exact hok
        have hih := ih (k + 1) (m ++ tc.outputNames.map fun n => (n, k)) hm2
        rw [hkeys2] at hih
        have hstep : ∀ r, buildProducerIndex factory (td :: rest) k m = .ok r ↔
            ∃ r2, buildProducerIndex factory rest (k + 1)
                (m ++ tc.outputNames.map fun n => (n, k)) = .ok r2 ∧
              r = (r2.1, tc :: r2.2) := by
          intro r
          cases hrb : buildProducerIndex factory rest (k + 1)
              (m ++ tc.outputNames.map fun n => (n, k)) with
          | ok r2 =>
            simp [buildProducerIndex, hr, hadd, hrb, bind, Except.bind, eq_comm]
          | error e2 =>
            simp [buildProducerIndex, hr, hadd, hrb, bind, Except.bind]
        constructor
        · rintro ⟨r, hrr⟩
          obtain ⟨r2, hr2, -⟩ := (hstep r).mp hrr
          obtain ⟨hnd2, hnf2⟩ := hih.mp ⟨r2, hr2⟩
          constructor
          · rw [List.map_cons, List.flatten_cons, heff, ← List.append_assoc]
            exact hnd2
          · exact fun hn => hnf2 (hneeds.mp hn)
        · rintro ⟨hndall, hnf⟩
          rw [List.map_cons, List.flatten_cons, heff, ← List.append_assoc] at hndall
          obtain ⟨r2, hr2⟩ := hih.mpr ⟨hndall, fun hn => hnf (hneeds.mpr hn)⟩
          exact ⟨(r2.1, tc :: r2.2), (hstep _).mpr ⟨r2, hr2, rfl⟩⟩
      · cases hadd : addOutputs k tc.outputNames m with
        | ok m2 =>
          exact absurd ((addOutputs_isOk_iff k _ m hm).mp ⟨m2, hadd⟩) hok
        | error e0 =>
          have h1 : ¬ ∃ r, buildProducerIndex factory (td :: rest) k m = .ok r := by
            simp [buildProducerIndex, hr, hadd, bind, Except.bind]
          have h2 : ¬ ((m.map Prod.fst ++
              ((td :: rest).map (effOutputs factory)).flatten).Nodup ∧
              ¬ needsFactory (td :: rest) factory) := by
            rintro ⟨hndall, -⟩
            apply hok
            rw [List.map_cons, List.flatten_cons, heff, ← List.append_assoc] at hndall
            exact hndall.sublist (List.sublist_append_left _ _)
          exact iff_of_false h1 h2

/-- Claim C2: `isPipelineOrdered` raises (rather than returning a boolean)
exactly when the same output dataset-type name is declared by more than one
task declaration — regardless of positions — or some task's class is
unresolved with no factory supplied; otherwise it returns true or false. -/
theorem isPipelineOrdered_raises_iff (p : List TaskDef) (factory : Option TaskFactory) :
    (∃ e, isPipelineOrdered p factory = .error e) ↔
      (¬ (p.map (effOutputs factory)).flatten.Nodup ∨ needsFactory p factory) := by
  have h := buildProducerIndex_isOk_iff factory p 0 [] (by simp)
  constructor
  · rintro ⟨e, he⟩
    by_contra hc
    push_neg at hc
    obtain ⟨hnd, hnf⟩ := hc
    obtain ⟨r, hrr⟩ := h.mpr ⟨by simpa using hnd, hnf⟩
    rw [isPipelineOrdered, hrr] at he
    simp [bind, Except.bind] at he
  · intro hc
    cases hb : buildProducerIndex factory p 0 [] with
    | ok r =>
      have hright := h.mp ⟨r, hb⟩
      rcases hc with hdup | hnf
      · exact absurd (by simpa using hright.1) hdup
      · exact absurd hnf hright.2
    | error e =>
      refine ⟨e, ?_⟩
      rw [isPipelineOrdered, hb]
      rfl

/-- Claim C3 counterexample: constructing a `Quantum` with
`director = ""` — set, and a key of neither mapping — succeeds instead of
raising, so the claim's raise condition is violated as stated. -/
theorem quantum_empty_director_cex :
    mkQuantum demoInputs demoOutputs none (some "") =
      .ok { inputs := demoInputs, outputs := demoOutputs, extras := none,
            director := some "" } ∧
    (some "" : Option String) ≠ none ∧
    hasKey demoInputs "" = false ∧
    hasKey demoOutputs "" = false :=
  ⟨rfl, by simp, rfl, rfl⟩

/-- Claim C3 (amended): `Quantum(inputs, outputs, extras, director)` raises
a construction-time error exactly when `director` is a non-empty string and
a key of neither `inputs` nor `outputs`; it succeeds — storing all four
fields unchanged — whenever `director` is unset, the empty string, or a key
of `inputs` or of `outputs`. -/
theorem quantum_director_invariant (ins outs : List (String × List DataId))
    (ex : Option PyVal) (dir : Option String) :
    ((∃ e, mkQuantum ins outs ex dir = .error e) ↔
      ∃ d, dir = some d ∧ d ≠ "" ∧ hasKey ins d = false ∧ hasKey outs d = false) ∧
    ((dir = none ∨ dir = some "" ∨
        ∃ d, dir = some d ∧ (hasKey ins d || hasKey outs d) = true) →
      mkQuantum ins outs ex dir =
        .ok { inputs := ins, outputs := outs, extras := ex, director := dir }) := by
  constructor
  · unfold mkQuantum quantumCheckFails
    cases dir with
    | none => simp
    | some d =>
      by_cases hd : d = ""
      · subst hd; simp
      · have hd2 : (d != "") = true := by simpa using hd
        cases hin : hasKey ins d <;> cases hout : hasKey outs d <;>
          simp [hd2, hin, hout, hd]
  · intro h
    unfold mkQuantum quantumCheckFails
    rcases h with h | h | ⟨d, hdir, hkey⟩
    · subst h; simp
    · subst h; simp
    · subst hdir
      rcases Bool.or_eq_true_iff.mp hkey with hk | hk <;> simp [hk]

/-- Claim C3 witness: the spec's own success example `director = "raw"`. -/
theorem quantum_director_invariant_witness :
    mkQuantum demoInputs demoOutputs none (some "raw") =
      .ok { inputs := demoInputs, outputs := demoOutputs, extras := none,
            director := some "raw" } :=
  (quantum_director_invariant demoInputs demoOutputs none (some "raw")).2
    (Or.inr (Or.inr ⟨"raw", rfl, by decide⟩))

/-- Claim C10: for every inputs and outputs mapping, a `Quantum` built with
`director = ""` succeeds without raising and stores the empty string, even
though `""` is a key of neither mapping: the membership check is skipped
for any falsy director. -/
theorem quantum_falsy_director_skips_check (ins outs : List (String × List DataId))
    (ex : Option PyVal) :
    mkQuantum ins outs ex (some "") =
      .ok { inputs := ins, outputs := outs, extras := ex, director := some "" } := by
  unfold mkQuantum quantumCheckFails
  simp

/-- Claim C8 (code-bug evidence): the `'Both'` classification is
unreachable — a class inheriting from both `SuperTask` and `CmdLineTask`
is classified `'SuperTask'` and dispatched for execution, not reported as
ambiguous via `RuntimeError`. -/
theorem superTaskSubclass_both_unreachable :
    (∀ mro : List String, superTaskSubclass mro ≠ "Both") ∧
    superTaskSubclass bothKindsMro = "SuperTask" ∧
    parseAndRunDispatch bothKindsMro = .executes := by
  refine ⟨?_, by decide, by decide⟩
  intro mro
  unfold superTaskSubclass
  by_cases h1 : "SuperTask" ∈ mro <;> by_cases h2 : "CmdLineTask" ∈ mro <;>
    simp [h1, h2]

/-- Claim C9 counterexample: the envelope exception raised for an
unrecognized (non-`Exception`) error carries the original type name and
message but not the captured stack trace — the trace is absent from the
envelope's message. -/
theorem executeSuperTask_trace_cex :
    (executeSuperTask (.baseExc "KeyboardInterrupt" "interrupted" "TRACE_LINES")).fst =
      .exc "Exception" "Unhandled exception: KeyboardInterrupt (interrupted)" ∧
    strContainsSub "Unhandled exception: KeyboardInterrupt (interrupted)" "TRACE_LINES"
      = false :=
  ⟨rfl, by decide⟩

/-- Claim C9 (amended): a recognized (`Exception`-derived) error propagates
unchanged; an unrecognized one is re-raised as a recognized `Exception`
whose message carries the original type name and message, while the
captured stack trace is written to the worker's log record rather than
carried in the envelope. -/
theorem executeSuperTask_marshalling (name msg trace : String) :
    executeSuperTask (.exc name msg) = (.exc name msg, []) ∧
    executeSuperTask (.baseExc name msg trace) =
      (.exc "Exception" ("Unhandled exception: " ++ name ++ " (" ++ msg ++ ")"),
       ["Unhandled exception " ++ name ++ " (" ++ msg ++ "):\n" ++ trace]) ∧
    strCarries ("Unhandled exception: " ++ name ++ " (" ++ msg ++ ")") name ∧
    strCarries ("Unhandled exception: " ++ name ++ " (" ++ msg ++ ")") msg ∧
    strCarries ("Unhandled exception " ++ name ++ " (" ++ msg ++ "):\n" ++ trace) trace := by
  refine ⟨rfl, rfl, ?_, ?_, ?_⟩
  · exact ⟨"Unhandled exception: ", " (" ++ msg ++ ")", by
      simp [String.append_assoc]⟩
  · exact ⟨"Unhandled exception: " ++ name ++ " (", ")", by
      simp [String.append_assoc]⟩
  · exact ⟨"Unhandled exception " ++ name ++ " (" ++ msg ++ "):\n", "", by
      simp [String.append_empty]⟩

/-- Claim C5: `applyTo` processes the accumulated overrides strictly in
insertion order — applying a concatenation is applying the first part and
then the rest from wherever it ended, aborting at the first failure — and
two runs over equal freshly-built configuration states perform identical
operations: they succeed or fail at the same override with equal results. -/
theorem applyTo_insertion_order (env : PyEnv) (xs ys : List Override) (cfg : ConfigObj) :
    (applyTo env (xs ++ ys) cfg =
      (applyTo env xs cfg).bind (fun cfg2 => applyTo env ys cfg2)) ∧
    (∀ cfg₁ cfg₂ : ConfigObj, cfg₁ = cfg₂ →
      applyTo env (xs ++ ys) cfg₁ = applyTo env (xs ++ ys) cfg₂) := by
  constructor
  · induction xs generalizing cfg with
    | nil => rfl
    | cons ov rest ih =>
      show applyTo env (ov :: (rest ++ ys)) cfg = _
      cases h : applyOne env cfg ov with
      | ok cfg2 =>
        calc applyTo env (ov :: (rest ++ ys)) cfg
            = applyTo env (rest ++ ys) cfg2 := by
              simp only [applyTo, h]
          _ = (applyTo env rest cfg2).bind (fun c => applyTo env ys c) := ih cfg2
          _ = (applyTo env (ov :: rest) cfg).bind (fun c => applyTo env ys c) := by
              simp only [applyTo, h]
      | error e =>
        simp only [applyTo, h]
        rfl
  · intro c1 c2 h
    rw [h]

/-- Claim C5 witness: a file override followed by a value override, applied
to the demo configuration. -/
theorem applyTo_insertion_order_witness :
    (applyTo demoEnv ([.file "overrides.py"] ++ [.value "sub.field" (.str "[1,2,3]")])
        demoConfigObj =
      (applyTo demoEnv [.file "overrides.py"] demoConfigObj).bind
        (fun cfg2 => applyTo demoEnv [.value "sub.field" (.str "[1,2,3]")] cfg2)) ∧
    (applyTo demoEnv ([.file "overrides.py"] ++ [.value "sub.field" (.str "[1,2,3]")])
        demoConfigObj =
      applyTo demoEnv ([.file "overrides.py"] ++ [.value "sub.field" (.str "[1,2,3]")])
        demoConfigObj) :=
  ⟨(applyTo_insertion_order demoEnv [.file "overrides.py"]
      [.value "sub.field" (.str "[1,2,3]")] demoConfigObj).1,
   (applyTo_insertion_order demoEnv [.file "overrides.py"]
      [.value "sub.field" (.str "[1,2,3]")] demoConfigObj).2
     demoConfigObj demoConfigObj rfl⟩

/-- Claim C6: a `NameSubstitution` override fails with an `OverrideError`
when the mapping string does not parse, parses to a non-dictionary, or the
configuration is not a `PipelineTaskConfig`; when all three checks pass it
makes exactly one `formatTemplateNames` call with the parsed mapping. -/
theorem applyTo_namesDict (env : PyEnv) (cfg : ConfigObj) (s : String) :
    (env.literalEvalFn s = none →
      applyTo env [.namesDict s] cfg = .error (.namesDictErr s)) ∧
    (∀ v, env.literalEvalFn s = some v → (∀ d, v ≠ .dict d) →
      applyTo env [.namesDict s] cfg = .error (.namesDictErr s)) ∧
    (∀ d, env.literalEvalFn s = some (.dict d) → cfg.isPipelineTaskConfig = false →
      applyTo env [.namesDict s] cfg = .error .notPipelineTaskConfig) ∧
    (∀ d, env.literalEvalFn s = some (.dict d) → cfg.isPipelineTaskConfig = true →
      applyTo env [.namesDict s] cfg =
        .ok { cfg with templateCalls := cfg.templateCalls ++ [d] }) := by
  refine ⟨?_, ?_, ?_, ?_⟩
  · intro h
    simp [applyTo, applyOne, h]
  · intro v hv hnd
    cases v with
    | dict d => exact absurd rfl (hnd d)
    | int n => simp [applyTo, applyOne, hv]
    | str t => simp [applyTo, applyOne, hv]
    | list xs => simp [applyTo, applyOne, hv]
  · intro d hv hpc
    simp [applyTo, applyOne, hv, hpc]
  · intro d hv hpc
    simp [applyTo, applyOne, hv, hpc]

/-- Claim C6 witness: the documented `{'input': 'deep'}` substitution is
parsed and forwarded as one `formatTemplateNames` call. -/
theorem applyTo_namesDict_witness :
    applyTo demoEnv [.namesDict "\x7b'input': 'deep'\x7d"] demoConfigObj =
      .ok { demoConfigObj with
              templateCalls := demoConfigObj.templateCalls ++
                [[(.str "input", .str "deep")]] } :=
  (applyTo_namesDict demoEnv demoConfigObj "\x7b'input': 'deep'\x7d").2.2.2
    [(.str "input", .str "deep")] rfl rfl

/-- Claim C4: a `Value(fieldPath, value)` override whose target field is a
list field and whose value is a string first parses the string (Python
`eval`) and assigns the parsed sequence — `"[1,2,3]"` yields the list
`[1, 2, 3]`, not the string — and raises an `OverrideError` when the
string cannot be parsed. -/
theorem applyTo_value_listfield (env : PyEnv) (cfg : ConfigObj) (fieldPath s last : String)
    (obj : Config) (old : List PyVal)
    (hlast : (fieldParts fieldPath).getLast? = some last)
    (hobj : walkPath cfg.root (fieldParts fieldPath).dropLast = .ok obj)
    (hcur : getAttr obj last = some (.listField old)) :
    (∀ vs, env.evalFn s = some (.list vs) →
      applyTo env [.value fieldPath (.str s)] cfg =
        .ok { cfg with
                root := setAtPath cfg.root (fieldParts fieldPath).dropLast last
                          (.listField vs) }) ∧
    (env.evalFn s = none →
      applyTo env [.value fieldPath (.str s)] cfg = .error (.parseListErr s)) := by
  constructor
  · intro vs hv
    simp [applyTo, applyOne, hlast, hobj, hcur, hv, isListFieldVal, isStr, strOf,
      setFieldVal, bind, Except.bind]
  · intro hv
    simp [applyTo, applyOne, hlast, hobj, hcur, hv, isListFieldVal, isStr, strOf,
      bind, Except.bind]

/-- Claim C4 witness: the spec's example `Value("sub.field", "[1,2,3]")`
applied to the demo configuration stores the parsed list. -/
theorem applyTo_value_listfield_witness :
    applyTo demoEnv [.value "sub.field" (.str "[1,2,3]")] demoConfigObj =
      .ok { demoConfigObj with
              root := setAtPath demoConfigObj.root (fieldParts "sub.field").dropLast
                        "field" (.listField [.int 1, .int 2, .int 3]) } :=
  (applyTo_value_listfield demoEnv demoConfigObj "sub.field" "[1,2,3]" "field"
      demoSubConfig [.int 0] rfl rfl rfl).1
    [.int 1, .int 2, .int 3] rfl

/-- Claim C7 counterexample: two distinct refs whose `_datasetRefId` keys
collide (a separator-laden dataset-type name versus a DataId entry), so the
export merges them into one dataset node where the claim requires two. -/
theorem graph2dot_collision_cex :
    collidingRefA ≠ collidingRefB ∧
    datasetRefId collidingRefA = datasetRefId collidingRefB ∧
    dsNodeCount (graph2dotLines collidingQG) = 1 ∧
    (allRefs collidingQG).dedup.length = 2 := by
  refine ⟨by decide, ?_, by decide, by decide⟩
  rfl

/-- Strings with equal character data are equal. -/
theorem strDataInj (a b : String) (h : a.data = b.data) : a = b := by
  cases a; cases b; exact congrArg String.mk h

/-- Unambiguous-prefix split: if two stop-free prefixes are each followed
by a remainder that is empty or stop-headed, the decompositions coincide. -/
theorem splitFree (stop : Char → Bool) :
    ∀ (a b r s : List Char),
      (∀ c ∈ a, stop c = false) → (∀ c ∈ b, stop c = false) →
      (∀ c, r.head? = some c → stop c = true) →
      (∀ c, s.head? = some c → stop c = true) →
      a ++ r = b ++ s → a = b ∧ r = s := by
  intro a
  induction a with
  | nil =>
    intro b r s ha hb hr hs heq
    cases b with
    | nil => exact ⟨rfl, heq⟩
    | cons c b2 =>
      simp only [List.nil_append, List.cons_append] at heq
      have h1 : stop c = true := hr c (by rw [heq]; rfl)
      have h2 : stop c = false := hb c (by simp)
      rw [h1] at h2
      cases h2
  | cons c a2 ih =>
    intro b r s ha hb hr hs heq
    cases b with
    | nil =>
      simp only [List.nil_append, List.cons_append] at heq
      have h1 : stop c = true := hs c (by rw [← heq]; rfl)
      have h2 : stop c = false := ha c (by simp)
      rw [h1] at h2
      cases h2
    | cons c2 b2 =>
      simp only [List.cons_append, List.cons.injEq] at heq
      obtain ⟨hc, heq2⟩ := heq
      subst hc
      obtain ⟨hab, hrs⟩ :=
        ih b2 r s (fun x hx => ha x (by simp [hx])) (fun x hx => hb x (by simp [hx]))
          hr hs heq2
      exact ⟨by rw [hab], hrs⟩

/-- Character shape of one encoded DataId entry. -/
theorem encodeEntries_data (k v : String) (rest : List (String × String)) :
    (encodeEntries ((k, v) :: rest)).data =
      ':' :: (k.data ++ '=' :: (v.data ++ (encodeEntries rest).data)) := by
  show (":" ++ k ++ "=" ++ v ++ encodeEntries rest).data = _
  simp [String.data_append]

/-- An encoded entry list is empty or starts with the `:` separator. -/
theorem encodeEntries_head (d : List (String × String)) :
    ∀ c, (encodeEntries d).data.head? = some c → c = ':' := by
  cases d with
  | nil =>
    intro c h
    simp [encodeEntries] at h
  | cons p rest =>
    obtain ⟨k, v⟩ := p
    intro c h
    rw [encodeEntries_data] at h
    simp at h
    exact h.symm

/-- A clean string contains neither separator character. -/
theorem cleanStr_spec (s : String) (h : cleanStr s = true) :
    ∀ c ∈ s.data, c ≠ ':' ∧ c ≠ '=' := by
  intro c hc
  have := List.all_eq_true.mp h c hc
  simpa using this

/-- Encoded entry lists are injective on clean entries. -/
theorem encodeEntries_inj :
    ∀ (d1 d2 : List (String × String)),
      (∀ p ∈ d1, cleanStr p.fst = true ∧ cleanStr p.snd = true) →
      (∀ p ∈ d2, cleanStr p.fst = true ∧ cleanStr p.snd = true) →
      encodeEntries d1 = encodeEntries d2 → d1 = d2 := by
  intro d1
  induction d1 with
  | nil =>
    intro d2 h1 h2 heq
    cases d2 with
    | nil => rfl
    | cons q d2t =>
      obtain ⟨k2, v2⟩ := q
      have hd := congrArg String.data heq
      rw [encodeEntries_data] at hd
      simp [encodeEntries] at hd
  | cons p d1t ih =>
    obtain ⟨k1, v1⟩ := p
    intro d2 h1 h2 heq
    cases d2 with
    | nil =>
      have hd := congrArg String.data heq
      rw [encodeEntries_data] at hd
      simp [encodeEntries] at hd
    | cons q d2t =>
      obtain ⟨k2, v2⟩ := q
      have hd := congrArg String.data heq
      rw [encodeEntries_data, encodeEntries_data] at hd
      simp only [List.cons.injEq, true_and] at hd
      have hk1c := (h1 (k1, v1) (by simp)).1
      have hv1c := (h1 (k1, v1) (by simp)).2
      have hk2c := (h2 (k2, v2) (by simp)).1
      have hv2c := (h2 (k2, v2) (by simp)).2
      obtain ⟨hkd, hrest⟩ :=
        splitFree (fun c => decide (c = '=')) k1.data k2.data _ _
          (fun c hc => decide_eq_false (cleanStr_spec k1 hk1c c hc).2)
          (fun c hc => decide_eq_false (cleanStr_spec k2 hk2c c hc).2)
          (fun c hc => by
            simp only [List.head?_cons, Option.some.injEq] at hc
            rw [← hc]; simp)
          (fun c hc => by
            simp only [List.head?_cons, Option.some.injEq] at hc
            rw [← hc]; simp)
          hd
      simp only [List.cons.injEq, true_and] at hrest
      obtain ⟨hvd, htail⟩ :=
        splitFree (fun c => decide (c = ':')) v1.data v2.data _ _
          (fun c hc => decide_eq_false (cleanStr_spec v1 hv1c c hc).1)
          (fun c hc => decide_eq_false (cleanStr_spec v2 hv2c c hc).1)
          (fun c hc => decide_eq_true (encodeEntries_head d1t c hc))
          (fun c hc => decide_eq_true (encodeEntries_head d2t c hc))
          hrest
      have hk : k1 = k2 := strDataInj _ _ hkd
      have hv : v1 = v2 := strDataInj _ _ hvd
      have ht : d1t = d2t :=
        ih d2t (fun q hq => h1 q (by simp [hq])) (fun q hq => h2 q (by simp [hq]))
          (strDataInj _ _ htail)
      rw [hk, hv, ht]

/-- Sorting a strictly ascending list of strings is the identity. -/
theorem sortStrs_sorted_id : ∀ (l : List String), List.Chain' (fun a b => a < b) l →
    sortStrs l = l := by
  intro l
  induction l with
  | nil => intro _; rfl
  | cons x xs ih =>
    intro h
    obtain ⟨hhead, htail⟩ := List.chain'_cons'.mp h
    rw [sortStrs, ih htail]
    cases xs with
    | nil => rfl
    | cons y ys =>
      have hxy : x < y := hhead y rfl
      rw [insertSorted, if_pos (le_of_lt hxy)]

/-- The Bool sortedness check gives a strictly ascending key chain. -/
theorem strictSortedKeys_chain : ∀ (d : List (String × String)),
    strictSortedKeys d = true → List.Chain' (fun a b => a < b) (d.map Prod.fst) := by
  intro d
  induction d with
  | nil => intro _; simp
  | cons p rest ih =>
    intro h
    cases rest with
    | nil => simp
    | cons q rest2 =>
      rw [strictSortedKeys] at h
      obtain ⟨hlt, hrest⟩ := Bool.and_eq_true_iff.mp h
      rw [List.map_cons, List.map_cons]
      apply List.chain'_cons.mpr
      constructor
      · exact of_decide_eq_true hlt
      · have := ih hrest
        rw [List.map_cons] at this
        exact this

/-- The sortedness check survives dropping the head entry. -/
theorem strictSortedKeys_tail (p : String × String) (rest : List (String × String))
    (h : strictSortedKeys (p :: rest) = true) : strictSortedKeys rest = true := by
  cases rest with
  | nil => rfl
  | cons q rest2 =>
    rw [strictSortedKeys] at h
    exact (Bool.and_eq_true_iff.mp h).2

/-- In a strictly key-sorted entry list the head key is below every later
key. -/
theorem sorted_head_lt : ∀ (k v : String) (rest : List (String × String)),
    strictSortedKeys ((k, v) :: rest) = true → ∀ p ∈ rest, k < p.fst := by
  intro k v rest
  induction rest generalizing k v with
  | nil => intro _ p hp; cases hp
  | cons q rest2 ih =>
    intro h p hp
    obtain ⟨k2, v2⟩ := q
    rw [strictSortedKeys] at h
    obtain ⟨hlt, hrest⟩ := Bool.and_eq_true_iff.mp h
    have hklt : k < k2 := of_decide_eq_true hlt
    rcases List.mem_cons.mp hp with hp | hp
    · rw [hp]; exact hklt
    · exact lt_trans hklt (ih k2 v2 hrest p hp)

/-- Strictly key-sorted entry lists look up each of their own pairs. -/
theorem sorted_lookup_self : ∀ (d : List (String × String)),
    strictSortedKeys d = true → ∀ p ∈ d, d.lookup p.fst = some p.snd := by
  intro d
  induction d with
  | nil => intro _ p hp; cases hp
  | cons q rest ih =>
    intro h p hp
    obtain ⟨k, v⟩ := q
    rcases List.mem_cons.mp hp with hp | hp
    · rw [hp]
      simp [List.lookup]
    · have hne : p.fst ≠ k := by
        have := sorted_head_lt k v rest h p hp
        exact fun hf => absurd (hf ▸ this) (lt_irrefl _)
      have hb : (p.fst == k) = false := beq_false_of_ne hne
      simp only [List.lookup, hb]
      exact ih (strictSortedKeys_tail _ _ h) p hp

/-- Folding the per-key lookups over a self-describing entry list encodes
the entries. -/
theorem foldl_encode (full : DataId) :
    ∀ (d : List (String × String)) (acc : String),
      (∀ p ∈ d, (full : List (String × String)).lookup p.fst = some p.snd) →
      (d.map Prod.fst).foldl
        (fun acc k => acc ++ ":" ++ k ++ "=" ++ dataIdLookup full k) acc
      = acc ++ encodeEntries d := by
  intro d
  induction d with
  | nil =>
    intro acc _
    simp [encodeEntries, String.append_empty]
  | cons p rest ih =>
    obtain ⟨k, v⟩ := p
    intro acc h
    have hk : dataIdLookup full k = v := by
      have := h (k, v) (by simp)
      simp [dataIdLookup, this]
    simp only [List.map_cons, List.foldl_cons]
    rw [ih _ (fun q hq => h q (by simp [hq])), hk]
    show _ = acc ++ encodeEntries ((k, v) :: rest)
    apply strDataInj
    simp [String.data_append, encodeEntries_data]

/-- On a canonical (strictly key-sorted) ref the dedup key is the name
followed by the entry encoding. -/
theorem datasetRefId_canonical (r : DatasetRef)
    (h : strictSortedKeys (r.dataId : List (String × String)) = true) :
    datasetRefId r = r.datasetType.name ++ encodeEntries r.dataId := by
  rw [datasetRefId, sortStrs_sorted_id _ (strictSortedKeys_chain _ h)]
  exact foldl_encode r.dataId r.dataId r.datasetType.name (sorted_lookup_self _ h)

/-- The dedup key `_datasetRefId` is injective on clean refs. -/
theorem datasetRefId_inj (r1 r2 : DatasetRef)
    (h1 : cleanRef r1 = true) (h2 : cleanRef r2 = true)
    (heq : datasetRefId r1 = datasetRefId r2) : r1 = r2 := by
  simp only [cleanRef, Bool.and_eq_true, List.all_eq_true] at h1 h2
  obtain ⟨⟨hn1, he1⟩, hs1⟩ := h1
  obtain ⟨⟨hn2, he2⟩, hs2⟩ := h2
  rw [datasetRefId_canonical r1 hs1, datasetRefId_canonical r2 hs2] at heq
  have hd := congrArg String.data heq
  simp only [String.data_append] at hd
  obtain ⟨hname, hrest⟩ :=
    splitFree (fun c => decide (c = ':'))
      r1.datasetType.name.data r2.datasetType.name.data
      (encodeEntries r1.dataId).data (encodeEntries r2.dataId).data
      (fun c hc => decide_eq_false (cleanStr_spec _ hn1 c hc).1)
      (fun c hc => decide_eq_false (cleanStr_spec _ hn2 c hc).1)
      (fun c hc => decide_eq_true (encodeEntries_head _ c hc))
      (fun c hc => decide_eq_true (encodeEntries_head _ c hc))
      hd
  have hdid : (r1.dataId : List (String × String)) = r2.dataId := by
    apply encodeEntries_inj
    · intro p hp
      exact he1 p hp
    · intro p hp
      exact he2 p hp
    · exact strDataInj _ _ hrest
  obtain ⟨⟨n1⟩, d1⟩ := r1
  obtain ⟨⟨n2⟩, d2⟩ := r2
  simp only at hname hdid
  simp [strDataInj _ _ hname, hdid]

/-- `pushNews` over a concatenation composes. -/
theorem pushNews_append (ks xs ys : List String) :
    pushNews ks (xs ++ ys) = pushNews (pushNews ks xs) ys := by
  simp [pushNews, List.foldl_append]

/-- `pushNews` keeps keys duplicate-free; membership is the union. -/
theorem pushNews_spec (ids : List String) :
    ∀ ks : List String, ks.Nodup →
      (pushNews ks ids).Nodup ∧ ∀ x, x ∈ pushNews ks ids ↔ x ∈ ks ∨ x ∈ ids := by
  induction ids with
  | nil =>
    intro ks h
    exact ⟨h, by simp [pushNews]⟩
  | cons i rest ih =>
    intro ks h
    by_cases hi : i ∈ ks
    · have hstep : pushNews ks (i :: rest) = pushNews ks rest := by
        simp [pushNews, hi]
      obtain ⟨h1, h2⟩ := ih ks h
      rw [hstep]
      refine ⟨h1, fun x => ?_⟩
      rw [h2]
      constructor
      · rintro (hx | hx)
        · exact Or.inl hx
        · exact Or.inr (by simp [hx])
      · rintro (hx | hx)
        · exact Or.inl hx
        · rcases List.mem_cons.mp hx with hx | hx
          · subst hx; exact Or.inl hi
          · exact Or.inr hx
    · have hstep : pushNews ks (i :: rest) = pushNews (ks ++ [i]) rest := by
        simp [pushNews, hi]
      have hnd : (ks ++ [i]).Nodup := by
        simp [List.nodup_append, h, hi]
      obtain ⟨h1, h2⟩ := ih (ks ++ [i]) hnd
      rw [hstep]
      refine ⟨h1, fun x => ?_⟩
      rw [h2]
      simp only [List.mem_append, List.mem_singleton, List.mem_cons]
      tauto

/-- The length of `pushNews` is the number of distinct elements of the
concatenation. -/
theorem pushNews_length (ks ids : List String) (h : ks.Nodup) :
    (pushNews ks ids).length = (ks ++ ids).dedup.length := by
  obtain ⟨h1, h2⟩ := pushNews_spec ids ks h
  have e1 : (pushNews ks ids).toFinset = (ks ++ ids).toFinset := by
    ext x
    simp [List.mem_toFinset, h2, List.mem_append]
  calc (pushNews ks ids).length = (pushNews ks ids).dedup.length := by rw [h1.dedup]
    _ = (pushNews ks ids).toFinset.card := (List.card_toFinset _).symm
    _ = (ks ++ ids).toFinset.card := by rw [e1]
    _ = (ks ++ ids).dedup.length := List.card_toFinset _

/-- Distinct counts transfer along maps injective on the list. -/
theorem dedup_length_map_inj {α β : Type} [DecidableEq α] [DecidableEq β] (f : α → β) :
    ∀ l : List α, (∀ x ∈ l, ∀ y ∈ l, f x = f y → x = y) →
      (l.map f).dedup.length = l.dedup.length := by
  intro l
  induction l with
  | nil => intro _; rfl
  | cons a rest ih =>
    intro hinj
    have hiff : f a ∈ rest.map f ↔ a ∈ rest := by
      constructor
      · intro hm
        obtain ⟨y, hy, hfy⟩ := List.mem_map.mp hm
        have : y = a := hinj y (by simp [hy]) a (by simp) hfy
        rwa [← this]
      · intro hm
        exact List.mem_map_of_mem f hm
    have hrec := ih (fun x hx y hy => hinj x (by simp [hx]) y (by simp [hy]))
    by_cases ha : a ∈ rest
    · rw [List.map_cons, List.dedup_cons_of_mem (hiff.mpr ha),
        List.dedup_cons_of_mem ha]
      exact hrec
    · rw [List.map_cons, List.dedup_cons_of_not_mem (fun hm => ha (hiff.mp hm)),
        List.dedup_cons_of_not_mem ha]
      simp [hrec]

/-- `_makeDSNode` when the ref is already known. -/
theorem makeDSNode_found (r : DatasetRef) (alld : List (String × String)) (nm : String)
    (h : alld.lookup (datasetRefId r) = some nm) :
    makeDSNode r alld = (nm, alld, []) := by
  simp [makeDSNode, h]

/-- `_makeDSNode` when the ref is new. -/
theorem makeDSNode_new (r : DatasetRef) (alld : List (String × String))
    (h : alld.lookup (datasetRefId r) = none) :
    makeDSNode r alld =
      ("dsref_" ++ toString alld.length,
        alld ++ [(datasetRefId r, "dsref_" ++ toString alld.length)],
        [DotLine.dsNode ("dsref_" ++ toString alld.length) (dsNodeLabel r)]) := by
  simp [makeDSNode, h]

/-- Counting dataset-node statements distributes over concatenation. -/
theorem dsNodeCount_append (l1 l2 : List DotLine) :
    dsNodeCount (l1 ++ l2) = dsNodeCount l1 + dsNodeCount l2 := by
  simp [dsNodeCount, List.filter_append]

/-- Counting edge statements distributes over concatenation. -/
theorem edgeCount_append (l1 l2 : List DotLine) :
    edgeCount (l1 ++ l2) = edgeCount l1 + edgeCount l2 := by
  simp [edgeCount, List.filter_append]

/-- One step of the ref loop, unfolded. -/
theorem processRefs_cons (t : String) (b : Bool) (r : DatasetRef)
    (rest : List DatasetRef) (alld : List (String × String)) :
    processRefs t b (r :: rest) alld =
      ((processRefs t b rest (makeDSNode r alld).2.1).1,
        (makeDSNode r alld).2.2 ++
          [if b then DotLine.edge (makeDSNode r alld).1 t
           else DotLine.edge t (makeDSNode r alld).1] ++
          (processRefs t b rest (makeDSNode r alld).2.1).2) := rfl

/-- Invariant of the ref loop: node-map keys accumulate first-seen ref ids,
each new id contributes exactly one dataset-node line, and every ref
contributes exactly one edge. -/
theorem processRefs_spec (t : String) (b : Bool) :
    ∀ (rs : List DatasetRef) (alld : List (String × String)),
      ((processRefs t b rs alld).1.map Prod.fst =
        pushNews (alld.map Prod.fst) (rs.map datasetRefId)) ∧
      (alld.length + dsNodeCount (processRefs t b rs alld).2 =
        (processRefs t b rs alld).1.length) ∧
      edgeCount (processRefs t b rs alld).2 = rs.length := by
  intro rs
  induction rs with
  | nil =>
    intro alld
    refine ⟨?_, ?_, ?_⟩ <;> simp [processRefs, pushNews, dsNodeCount, edgeCount]
  | cons r rest ih =>
    intro alld
    rw [processRefs_cons]
    cases hlk : alld.lookup (datasetRefId r) with
    | some nm =>
      rw [makeDSNode_found r alld nm hlk]
      dsimp only
      obtain ⟨ih1, ih2, ih3⟩ := ih alld
      have hmem : datasetRefId r ∈ alld.map Prod.fst := by
        rw [← lookup_isSome_iff]
        simp [hlk]
      refine ⟨?_, ?_, ?_⟩
      · rw [List.map_cons]
        have hpush : pushNews (alld.map Prod.fst)
            (datasetRefId r :: rest.map datasetRefId) =
            pushNews (alld.map Prod.fst) (rest.map datasetRefId) := by
          simp [pushNews, hmem]
        rw [hpush]
        exact ih1
      · rw [dsNodeCount_append, dsNodeCount_append]
        have hz : dsNodeCount [if b then DotLine.edge nm t else DotLine.edge t nm] = 0 := by
          cases b <;> simp [dsNodeCount]
        have hnil : dsNodeCount ([] : List DotLine) = 0 := rfl
        rw [hz, hnil]
        omega
      · rw [edgeCount_append, edgeCount_append]
        have ho : edgeCount [if b then DotLine.edge nm t else DotLine.edge t nm] = 1 := by
          cases b <;> simp [edgeCount]
        have hnil : edgeCount ([] : List DotLine) = 0 := rfl
        rw [ho, hnil, ih3, List.length_cons]
        omega
    | none =>
      rw [makeDSNode_new r alld hlk]
      dsimp only
      obtain ⟨ih1, ih2, ih3⟩ :=
        ih (alld ++ [(datasetRefId r, "dsref_" ++ toString alld.length)])
      have hmem : datasetRefId r ∉ alld.map Prod.fst :=
        (lookup_eq_none_iff _ _).mp hlk
      refine ⟨?_, ?_, ?_⟩
      · rw [List.map_cons]
        have hpush : pushNews (alld.map Prod.fst)
            (datasetRefId r :: rest.map datasetRefId) =
            pushNews (alld.map Prod.fst ++ [datasetRefId r]) (rest.map datasetRefId) := by
          simp [pushNews, hmem]
        rw [hpush, ih1, List.map_append]
        rfl
      · rw [dsNodeCount_append, dsNodeCount_append]
        have hz : dsNodeCount [if b then DotLine.edge ("dsref_" ++ toString alld.length) t
            else DotLine.edge t ("dsref_" ++ toString alld.length)] = 0 := by
          cases b <;> simp [dsNodeCount]
        have hone : dsNodeCount
            [DotLine.dsNode ("dsref_" ++ toString alld.length) (dsNodeLabel r)] = 1 := by
          simp [dsNodeCount]
        rw [hz, hone]
        have hlen2 : (alld ++ [(datasetRefId r, "dsref_" ++ toString alld.length)]).length =
            alld.length + 1 := by simp
        rw [hlen2] at ih2
        omega
      · rw [edgeCount_append, edgeCount_append]
        have ho : edgeCount [if b then DotLine.edge ("dsref_" ++ toString alld.length) t
            else DotLine.edge t ("dsref_" ++ toString alld.length)] = 1 := by
          cases b <;> simp [edgeCount]
        have hz : edgeCount
            [DotLine.dsNode ("dsref_" ++ toString alld.length) (dsNodeLabel r)] = 0 := by
          simp [edgeCount]
        rw [ho, hz, ih3, List.length_cons]
        omega

/-- One quantum, unfolded. -/
theorem processQuantum_eq (td : TaskDef) (taskId qId : Nat) (q : QGQuantum)
    (alld : List (String × String)) :
    processQuantum td taskId qId q alld =
      ((processRefs ("task_" ++ toString taskId ++ "_" ++ toString qId) false
          (q.outputs.map Prod.snd).flatten
          (processRefs ("task_" ++ toString taskId ++ "_" ++ toString qId) true
            (q.predictedInputs.map Prod.snd).flatten alld).1).1,
        [DotLine.taskNode ("task_" ++ toString taskId ++ "_" ++ toString qId)
            (taskNodeLabel td)] ++
          (processRefs ("task_" ++ toString taskId ++ "_" ++ toString qId) true
            (q.predictedInputs.map Prod.snd).flatten alld).2 ++
          (processRefs ("task_" ++ toString taskId ++ "_" ++ toString qId) false
            (q.outputs.map Prod.snd).flatten
            (processRefs ("task_" ++ toString taskId ++ "_" ++ toString qId) true
              (q.predictedInputs.map Prod.snd).flatten alld).1).2) := rfl

/-- The quantum loop body: keys accumulate the quantum's ref ids, one
dataset node per new id, one edge per reference. -/
theorem processQuantum_spec (td : TaskDef) (taskId qId : Nat) (q : QGQuantum)
    (alld : List (String × String)) :
    ((processQuantum td taskId qId q alld).1.map Prod.fst =
      pushNews (alld.map Prod.fst) ((quantumRefs q).map datasetRefId)) ∧
    (alld.length + dsNodeCount (processQuantum td taskId qId q alld).2 =
      (processQuantum td taskId qId q alld).1.length) ∧
    edgeCount (processQuantum td taskId qId q alld).2 = (quantumRefs q).length := by
  rw [processQuantum_eq]
  dsimp only
  obtain ⟨a1, a2, a3⟩ := processRefs_spec
    ("task_" ++ toString taskId ++ "_" ++ toString qId) true
    (q.predictedInputs.map Prod.snd).flatten alld
  obtain ⟨b1, b2, b3⟩ := processRefs_spec
    ("task_" ++ toString taskId ++ "_" ++ toString qId) false
    (q.outputs.map Prod.snd).flatten
    (processRefs ("task_" ++ toString taskId ++ "_" ++ toString qId) true
      (q.predictedInputs.map Prod.snd).flatten alld).1
  refine ⟨?_, ?_, ?_⟩
  · rw [quantumRefs, List.map_append, pushNews_append, ← a1]
    exact b1
  · rw [dsNodeCount_append, dsNodeCount_append]
    have h0 : dsNodeCount [DotLine.taskNode
        ("task_" ++ toString taskId ++ "_" ++ toString qId) (taskNodeLabel td)] = 0 := rfl
    rw [h0]
    omega
  · rw [edgeCount_append, edgeCount_append]
    have h0 : edgeCount [DotLine.taskNode
        ("task_" ++ toString taskId ++ "_" ++ toString qId) (taskNodeLabel td)] = 0 := rfl
    rw [h0, a3, b3, quantumRefs, List.length_append]
    omega

/-- One step of the quanta loop, unfolded. -/
theorem processQuanta_cons (td : TaskDef) (taskId : Nat) (q : QGQuantum)
    (rest : List QGQuantum) (qId : Nat) (alld : List (String × String)) :
    processQuanta td taskId (q :: rest) qId alld =
      ((processQuanta td taskId rest (qId + 1) (processQuantum td taskId qId q alld).1).1,
        (processQuantum td taskId qId q alld).2 ++
          (processQuanta td taskId rest (qId + 1)
            (processQuantum td taskId qId q alld).1).2) := rfl

/-- The quanta loop lifts the per-quantum invariant. -/
theorem processQuanta_spec (td : TaskDef) (taskId : Nat) :
    ∀ (qs : List QGQuantum) (qId : Nat) (alld : List (String × String)),
      ((processQuanta td taskId qs qId alld).1.map Prod.fst =
        pushNews (alld.map Prod.fst) ((qs.map quantumRefs).flatten.map datasetRefId)) ∧
      (alld.length + dsNodeCount (processQuanta td taskId qs qId alld).2 =
        (processQuanta td taskId qs qId alld).1.length) ∧
      edgeCount (processQuanta td taskId qs qId alld).2 =
        (qs.map quantumRefs).flatten.length := by
  intro qs
  induction qs with
  | nil =>
    intro qId alld
    refine ⟨?_, ?_, ?_⟩ <;> simp [processQuanta, pushNews, dsNodeCount, edgeCount]
  | cons q rest ih =>
    intro qId alld
    rw [processQuanta_cons]
    dsimp only
    obtain ⟨a1, a2, a3⟩ := processQuantum_spec td taskId qId q alld
    obtain ⟨b1, b2, b3⟩ := ih (qId + 1) (processQuantum td taskId qId q alld).1
    refine ⟨?_, ?_, ?_⟩
    · rw [List.map_cons, List.flatten_cons, List.map_append, pushNews_append, ← a1]
      exact b1
    · rw [dsNodeCount_append]
      omega
    · rw [edgeCount_append, a3, b3, List.map_cons, List.flatten_cons, List.length_append]

/-- One step of the task loop, unfolded. -/
theorem graph2dotCore_cons (n : QGNodes) (rest : List QGNodes) (taskId : Nat)
    (alld : List (String × String)) :
    graph2dotCore (n :: rest) taskId alld =
      ((graph2dotCore rest (taskId + 1)
          (processQuanta n.taskDef taskId n.quanta 0 alld).1).1,
        (processQuanta n.taskDef taskId n.quanta 0 alld).2 ++
          (graph2dotCore rest (taskId + 1)
            (processQuanta n.taskDef taskId n.quanta 0 alld).1).2) := rfl

/-- The task loop lifts the invariant to the whole export. -/
theorem graph2dotCore_spec :
    ∀ (qg : List QGNodes) (taskId : Nat) (alld : List (String × String)),
      ((graph2dotCore qg taskId alld).1.map Prod.fst =
        pushNews (alld.map Prod.fst)
          ((qg.map (fun n => (n.quanta.map quantumRefs).flatten)).flatten.map
            datasetRefId)) ∧
      (alld.length + dsNodeCount (graph2dotCore qg taskId alld).2 =
        (graph2dotCore qg taskId alld).1.length) ∧
      edgeCount (graph2dotCore qg taskId alld).2 =
        (qg.map (fun n => (n.quanta.map quantumRefs).flatten)).flatten.length := by
  intro qg
  induction qg with
  | nil =>
    intro taskId alld
    refine ⟨?_, ?_, ?_⟩ <;> simp [graph2dotCore, pushNews, dsNodeCount, edgeCount]
  | cons n rest ih =>
    intro taskId alld
    rw [graph2dotCore_cons]
    dsimp only
    obtain ⟨a1, a2, a3⟩ := processQuanta_spec n.taskDef taskId n.quanta 0 alld
    obtain ⟨b1, b2, b3⟩ := ih (taskId + 1) (processQuanta n.taskDef taskId n.quanta 0 alld).1
    refine ⟨?_, ?_, ?_⟩
    · rw [List.map_cons, List.flatten_cons, List.map_append, pushNews_append, ← a1]
      exact b1
    · rw [dsNodeCount_append]
      omega
    · rw [edgeCount_append, a3, b3, List.map_cons, List.flatten_cons, List.length_append]

/-- Claim C7 (amended): provided every ref's dataset-type name and DataId
keys and values avoid the separator characters `:` and `=` (and DataIds are
in canonical sorted form), the lineage exporter emits exactly one dataset
node per distinct `DatasetRef` across the whole export — the dedup key is
collision-free for such refs — and one edge per referencing occurrence; the
emitted text is a pure function of the input steps.  Without the separator
restriction, distinct refs can share a key and are merged. -/
theorem graph2dot_dedup (qg : List QGNodes)
    (hclean : ∀ r ∈ allRefs qg, cleanRef r = true) :
    (∀ r1 ∈ allRefs qg, ∀ r2 ∈ allRefs qg,
        datasetRefId r1 = datasetRefId r2 → r1 = r2) ∧
    dsNodeCount (graph2dotLines qg) = (allRefs qg).dedup.length ∧
    edgeCount (graph2dotLines qg) = (allRefs qg).length := by
  have hinj : ∀ r1 ∈ allRefs qg, ∀ r2 ∈ allRefs qg,
      datasetRefId r1 = datasetRefId r2 → r1 = r2 :=
    fun r1 h1 r2 h2 he => datasetRefId_inj r1 r2 (hclean r1 h1) (hclean r2 h2) he
  obtain ⟨k1, k2, k3⟩ := graph2dotCore_spec qg 0 []
  have hall : (qg.map (fun n => (n.quanta.map quantumRefs).flatten)).flatten =
      allRefs qg := rfl
  have hlines : graph2dotLines qg =
      [DotLine.header] ++ (graph2dotCore qg 0 []).2 ++ [DotLine.footer] := rfl
  have hfinlen : (graph2dotCore qg 0 []).1.length = (allRefs qg).dedup.length := by
    have hlen1 : (graph2dotCore qg 0 []).1.length =
        ((graph2dotCore qg 0 []).1.map Prod.fst).length := by simp
    rw [hlen1, k1]
    have hnilkeys : (([] : List (String × String)).map Prod.fst) = [] := rfl
    rw [hnilkeys, pushNews_length [] _ (by simp), List.nil_append, hall]
    exact dedup_length_map_inj datasetRefId (allRefs qg) hinj
  refine ⟨hinj, ?_, ?_⟩
  · rw [hlines, dsNodeCount_append, dsNodeCount_append]
    have hh : dsNodeCount [DotLine.header] = 0 := rfl
    have hf : dsNodeCount [DotLine.footer] = 0 := rfl
    rw [hh, hf]
    simp only [List.length_nil, Nat.zero_add] at k2
    omega
  · rw [hlines, edgeCount_append, edgeCount_append]
    have hh : edgeCount [DotLine.header] = 0 := rfl
    have hf : edgeCount [DotLine.footer] = 0 := rfl
    rw [hh, hf, k3, hall]
    omega

/-- Claim C7 witness: the spec's shared-input example — two quanta
consuming one clean ref yield one dataset node and two edges. -/
theorem graph2dot_dedup_witness :
    (∀ r ∈ allRefs sharedRefQG, cleanRef r = true) ∧
    dsNodeCount (graph2dotLines sharedRefQG) = (allRefs sharedRefQG).dedup.length ∧
    edgeCount (graph2dotLines sharedRefQG) = (allRefs sharedRefQG).length ∧
    (allRefs sharedRefQG).dedup.length = 1 ∧
    (allRefs sharedRefQG).length = 2 :=
  ⟨by decide, (graph2dot_dedup sharedRefQG (by decide)).2.1,
   (graph2dot_dedup sharedRefQG (by decide)).2.2, by decide, by decide⟩

end PipeSuperTask
